import Mathlib

/-!
# pterodactyl-backup-cleaner: a verification development of `main.go`

The program reconciles a directory of `<uuid>.tar.gz` archives against the
`backups` table: it loads the identifiers of the records that are not
soft-deleted (`getValidBackupUUIDs`), enumerates the archive files with
`filepath.Glob`, and removes the files whose name is a well-formed UUID that
is not in the loaded set (`cleanOrphanedBackups`).

The development has three layers.

* A model of the Go standard-library calls the program makes
  (`strings.ToLower`, `strings.TrimSuffix`, `regexp.MatchString` for the one
  compiled pattern, `filepath.Clean/Join/Split/Base/Match/Glob`, `os.Stat`,
  `os.Remove`) on Unix.  Go strings are taken as well-formed UTF-8 texts;
  `filepath.Match` works on their bytes, paths are resolved element by element.
* A model of what the program touches: the `backups` table with the outcome of
  the query, and a file system given by its directory entries.
* The functions of `main.go`, translated statement by statement, with the log
  and the `os.Remove` calls recorded in the state.
-/

namespace BackupCleaner

/-! ## Strings -/

/-- The part of `unicode.ToLower` that Go computes without a table:
`'A'..'Z'` are shifted to `'a'..'z'`, every other ASCII code point is kept. -/
def asciiToLower (c : Char) : Char :=
  if 'A' ≤ c ∧ c ≤ 'Z' then Char.ofNat (c.toNat + 32) else c

/-- Go `unicode.ToLower`: ASCII code points are handled directly, the others
are looked up in the Unicode case table `tbl` (a table of the Go runtime,
taken as a parameter). -/
def unicodeToLower (tbl : Char → Char) (c : Char) : Char :=
  if c.toNat < 128 then asciiToLower c else tbl c

/-- Go `strings.ToLower`: every code point is mapped by `unicode.ToLower`
(the ASCII fast path of the library computes the same string). -/
def stringsToLower (tbl : Char → Char) (s : String) : String :=
  ⟨s.data.map (unicodeToLower tbl)⟩

/-- Whether `suffix` ends `s`, on code point lists (`strings.HasSuffix`). -/
def hasSuffixChars (s suffix : List Char) : Bool :=
  suffix.reverse.isPrefixOf s.reverse

/-- Go `strings.TrimSuffix`: `s` without the trailing `suffix`, or `s` itself
when it does not end with `suffix`. -/
def TrimSuffix (s suffix : String) : String :=
  if hasSuffixChars s.data suffix.data then
    ⟨s.data.take (s.data.length - suffix.data.length)⟩
  else s

/-! ## The compiled regular expression -/

/-- The character class `[0-9a-f]`. -/
def isLowerHex (c : Char) : Bool :=
  (decide ('0' ≤ c) && decide (c ≤ '9')) || (decide ('a' ≤ c) && decide (c ≤ 'f'))

/-- The literal `-`. -/
def isHyphen (c : Char) : Bool := c == '-'

/-- The pattern of `uuidRegex`,
`^[0-9a-f]{8}-[0-9a-f]{4}-[0-9a-f]{4}-[0-9a-f]{4}-[0-9a-f]{12}$`,
as the sequence of its 36 single-character atoms; the two anchors are part of
`MatchString`, which matches the whole text. -/
def uuidRegex : List (Char → Bool) :=
  List.replicate 8 isLowerHex ++ [isHyphen] ++ List.replicate 4 isLowerHex ++ [isHyphen] ++
  List.replicate 4 isLowerHex ++ [isHyphen] ++ List.replicate 4 isLowerHex ++ [isHyphen] ++
  List.replicate 12 isLowerHex

/-- Anchored match of a sequence of single-character atoms against a text:
the text has one code point per atom and each is accepted by its atom.  Go's
`$` (without the `m` flag) matches only at the end of the text. -/
def matchAtoms : List (Char → Bool) → List Char → Bool
  | [], [] => true
  | p :: ps, c :: cs => p c && matchAtoms ps cs
  | _, _ => false

/-- Go `(*Regexp).MatchString` for a pattern `^a₁a₂…aₙ$` of single-character atoms. -/
def MatchString (re : List (Char → Bool)) (s : String) : Bool :=
  matchAtoms re s.data

/-- The program's `isValidUUID` (main.go:111). -/
def isValidUUID (tbl : Char → Char) (uuid : String) : Bool :=
  MatchString uuidRegex (stringsToLower tbl uuid)

/-! ## Paths (`path/filepath` on Unix) -/

/-- The elements of a path: the runs of code points between separators, empty
runs included. -/
def splitSep : List Char → List (List Char)
  | [] => [[]]
  | c :: cs =>
    match splitSep cs with
    | [] => [[]]
    | h :: t => if c = '/' then [] :: h :: t else (c :: h) :: t

/-- One element of the input of `filepath.Clean`, applied to the output built
so far (`out`, most recent element first): empty and `.` elements are dropped,
`..` removes the previous element when there is one to remove, is dropped at
the root, and is kept at the start of a relative path. -/
def cleanStep (rooted : Bool) (out : List (List Char)) (elem : List Char) : List (List Char) :=
  if elem = [] ∨ elem = ['.'] then out
  else if elem = ['.', '.'] then
    match out with
    | [] => if rooted then [] else [elem]
    | top :: below => if top = ['.', '.'] ∧ rooted = false then elem :: out else below
  else elem :: out

/-- The elements of `out` (most recent first) written with separators between them. -/
def renderElems (out : List (List Char)) : List Char :=
  List.intercalate ['/'] out.reverse

/-- Go `filepath.Clean`, on code point lists. -/
def cleanChars (path : List Char) : List Char :=
  match path with
  | [] => ['.']
  | c :: _ =>
    let rooted : Bool := c = '/'
    let out := (splitSep path).foldl (cleanStep rooted) []
    let body := renderElems out
    if rooted then '/' :: body else if body = [] then ['.'] else body

/-- Go `filepath.Clean`. -/
def Clean (path : String) : String := ⟨cleanChars path.data⟩

/-- Go `filepath.Join` of two elements: empty leading elements are skipped, the
rest is joined with the separator and cleaned. -/
def Join (a b : String) : String :=
  if a ≠ "" then Clean (a ++ "/" ++ b)
  else if b ≠ "" then Clean b
  else ""

/-- Go `filepath.Split`: the path up to and including the final separator, and
what follows it. -/
def Split (path : String) : String × String :=
  let file := (path.data.reverse.takeWhile (· ≠ '/')).reverse
  (⟨path.data.take (path.data.length - file.length)⟩, ⟨file⟩)

/-- Go `filepath.Base`: the last element of the path, trailing separators
removed first; `.` for the empty path and `/` for a path of separators only. -/
def Base (path : String) : String :=
  if path = "" then "."
  else
    let stripped := (path.data.reverse.dropWhile (· = '/')).reverse
    let last := (stripped.reverse.takeWhile (· ≠ '/')).reverse
    if last = [] then "/" else ⟨last⟩

/-- Go `filepath.hasMeta` on Unix: the path contains one of `*`, `?`, `[`, `\`. -/
def hasMeta (path : String) : Bool :=
  path.data.any (fun c => c = '*' ∨ c = '?' ∨ c = '[' ∨ c = '\\')

/-- Go `filepath.cleanGlobPath` on Unix: the directory part of a pattern, made
ready for `glob`. -/
def cleanGlobPath (path : String) : String :=
  if path = "" then "."
  else if path = "/" then path
  else ⟨path.data.dropLast⟩

/-- The only error `filepath.Match` and `filepath.Glob` return. -/
inductive PathError where
  | ErrBadPattern
  deriving DecidableEq, Repr

deriving instance DecidableEq for Except

/-! ### `filepath.Match`

`Match` works on the bytes of its two strings: literals are compared byte by
byte, `?` and bracket expressions read one rune with
`utf8.DecodeRuneInString`, and after a `*` the chunk is retried at every byte
offset. -/

/-- The UTF-8 encoding of a code point. -/
def encodeRune (c : Char) : List Nat :=
  let n := c.toNat
  if n < 0x80 then [n]
  else if n < 0x800 then [0xC0 + n / 64, 0x80 + n % 64]
  else if n < 0x10000 then [0xE0 + n / 4096, 0x80 + (n / 64) % 64, 0x80 + n % 64]
  else [0xF0 + n / 262144, 0x80 + (n / 4096) % 64, 0x80 + (n / 64) % 64, 0x80 + n % 64]

/-- The bytes of a Go string. -/
def utf8Bytes (s : String) : List Nat := s.data.flatMap encodeRune

/-- The constant `utf8.RuneError`. -/
def RuneError : Nat := 0xFFFD

/-- A continuation byte, `0x80..0xBF`. -/
def isContinuation (b : Nat) : Bool := decide (0x80 ≤ b) && decide (b ≤ 0xBF)

/-- Go `utf8.DecodeRuneInString`: the first rune of the bytes and its width;
`(RuneError, 0)` for no bytes and `(RuneError, 1)` for bytes that do not start
with a well-formed encoding. -/
def decodeRune (s : List Nat) : Nat × Nat :=
  match s with
  | [] => (RuneError, 0)
  | b0 :: t =>
    if b0 < 0x80 then (b0, 1)
    else if 0xC2 ≤ b0 ∧ b0 ≤ 0xDF then
      match t with
      | b1 :: _ =>
        if isContinuation b1 then ((b0 % 32) * 64 + b1 % 64, 2) else (RuneError, 1)
      | _ => (RuneError, 1)
    else if 0xE0 ≤ b0 ∧ b0 ≤ 0xEF then
      match t with
      | b1 :: b2 :: _ =>
        if (if b0 = 0xE0 then 0xA0 else 0x80) ≤ b1 ∧ b1 ≤ (if b0 = 0xED then 0x9F else 0xBF) ∧
            isContinuation b2 = true then
          ((b0 % 16) * 4096 + (b1 % 64) * 64 + b2 % 64, 3)
        else (RuneError, 1)
      | _ => (RuneError, 1)
    else if 0xF0 ≤ b0 ∧ b0 ≤ 0xF4 then
      match t with
      | b1 :: b2 :: b3 :: _ =>
        if (if b0 = 0xF0 then 0x90 else 0x80) ≤ b1 ∧ b1 ≤ (if b0 = 0xF4 then 0x8F else 0xBF) ∧
            isContinuation b2 = true ∧ isContinuation b3 = true then
          ((b0 % 8) * 262144 + (b1 % 64) * 4096 + (b2 % 64) * 64 + b3 % 64, 4)
        else (RuneError, 1)
      | _ => (RuneError, 1)
    else (RuneError, 1)

/-- The loop of `scanChunk` after the leading stars: the chunk runs up to the
next `*` that is outside a bracket expression; a backslash takes the next byte
with it. -/
def scanBody : Bool → List Nat → List Nat × List Nat
  | _, [] => ([], [])
  | inrange, c :: t =>
    if c = '\\'.toNat then
      match t with
      | [] => ([c], [])
      | c2 :: t2 =>
        let (ch, r) := scanBody inrange t2
        (c :: c2 :: ch, r)
    else if c = '['.toNat then
      let (ch, r) := scanBody true t
      (c :: ch, r)
    else if c = ']'.toNat then
      let (ch, r) := scanBody false t
      (c :: ch, r)
    else if c = '*'.toNat then
      if inrange then
        let (ch, r) := scanBody inrange t
        (c :: ch, r)
      else ([], c :: t)
    else
      let (ch, r) := scanBody inrange t
      (c :: ch, r)

/-- Go `scanChunk`: the next segment of the pattern, a star-free chunk possibly
preceded by stars; returns `(star, chunk, rest)`. -/
def scanChunk (pattern : List Nat) : Bool × List Nat × List Nat :=
  let body := pattern.dropWhile (· = '*'.toNat)
  let star : Bool := body.length < pattern.length
  let (chunk, rest) := scanBody false body
  (star, chunk, rest)

/-- Go `getEsc`: a possibly escaped rune of a bracket expression with the rest
of the chunk; `none` is `ErrBadPattern`. -/
def getEsc (chunk : List Nat) : Option (Nat × List Nat) :=
  match chunk with
  | [] => none
  | c :: t =>
    if c = '-'.toNat ∨ c = ']'.toNat then none
    else
      match (if c = '\\'.toNat then t else chunk) with
      | [] => none
      | b :: t1 =>
        if (decodeRune (b :: t1)).1 = RuneError ∧ (decodeRune (b :: t1)).2 = 1 then none
        else if (b :: t1).drop (decodeRune (b :: t1)).2 = [] then none
        else some ((decodeRune (b :: t1)).1, (b :: t1).drop (decodeRune (b :: t1)).2)

/-- The range loop of a bracket expression in `matchChunk`: returns whether a
range contained `r` and the chunk after the closing bracket; `none` is
`ErrBadPattern`.  Every iteration consumes a byte of the chunk, so a fuel
above the length of the chunk is never used up. -/
def classLoop : Nat → List Nat → Nat → Nat → Bool → Option (Bool × List Nat)
  | 0, _, _, _, _ => none
  | fuel + 1, chunk, r, nrange, matched =>
    if chunk.head? = some ']'.toNat ∧ nrange > 0 then some (matched, chunk.tail)
    else
      match getEsc chunk with
      | none => none
      | some (lo, chunk1) =>
        if chunk1.head? = some '-'.toNat then
          match getEsc chunk1.tail with
          | none => none
          | some (hi, chunk2) =>
            classLoop fuel chunk2 r (nrange + 1) (matched || (decide (lo ≤ r) && decide (r ≤ hi)))
        else classLoop fuel chunk1 r (nrange + 1) (matched || (decide (lo ≤ r) && decide (r ≤ lo)))

/-- The result of `matchChunk`: an error, or the rest of the text when the
chunk matched its beginning (`none` when it did not). -/
abbrev ChunkResult := Except PathError (Option (List Nat))

/-- Go `matchChunk` with its `failed` flag: after a mismatch the chunk is still
scanned to the end for syntax errors.  Every iteration consumes a byte of the
chunk, so a fuel above the length of the chunk is never used up. -/
def matchChunkAux : Nat → List Nat → List Nat → Bool → ChunkResult
  | 0, _, _, _ => .error .ErrBadPattern
  | fuel + 1, chunk, s, failed0 =>
    match chunk with
    | [] => if failed0 then .ok none else .ok (some s)
    | c :: rest =>
      let failed := failed0 || s.isEmpty
      if c = '['.toNat then
        let r : Nat := if failed then 0 else (decodeRune s).1
        let s1 := if failed then s else s.drop (decodeRune s).2
        let negated : Bool := rest.head? = some '^'.toNat
        let body := if negated then rest.tail else rest
        match classLoop fuel body r 0 false with
        | none => .error .ErrBadPattern
        | some (m, chunk2) => matchChunkAux fuel chunk2 s1 (failed || (m == negated))
      else if c = '?'.toNat then
        matchChunkAux fuel rest (if failed then s else s.drop (decodeRune s).2)
          (failed || decide (s.head? = some '/'.toNat))
      else if c = '\\'.toNat then
        match rest with
        | [] => .error .ErrBadPattern
        | c2 :: rest2 =>
          matchChunkAux fuel rest2 (if failed then s else s.tail)
            (failed || decide (s.head? ≠ some c2))
      else
        matchChunkAux fuel rest (if failed then s else s.tail)
          (failed || decide (s.head? ≠ some c))

/-- Go `matchChunk`. -/
def matchChunk (chunk s : List Nat) : ChunkResult :=
  matchChunkAux (chunk.length + 1) chunk s false

/-- The loop of `Match` that tries a chunk after a star at each later byte
offset of the name, not skipping a separator. -/
def starSkip (chunk : List Nat) (lastChunk : Bool) : List Nat → ChunkResult
  | [] => .ok none
  | c :: tl =>
    if c = '/'.toNat then .ok none
    else
      match matchChunk chunk tl with
      | .error e => .error e
      | .ok (some t) => if lastChunk ∧ t ≠ [] then starSkip chunk lastChunk tl else .ok (some t)
      | .ok none => starSkip chunk lastChunk tl

/-- The main loop of `Match`, one iteration per chunk of the pattern; a fuel
above the length of the pattern is never used up.  A chunk that does not match
ends the loop with `(false, nil)`; the rest of the pattern is not looked at. -/
def matchLoop : Nat → List Nat → List Nat → Except PathError Bool
  | 0, _, _ => .error .ErrBadPattern
  | fuel + 1, pattern, name =>
    if pattern = [] then .ok (decide (name = []))
    else
      let (star, chunk, rest) := scanChunk pattern
      if star ∧ chunk = [] then .ok (!(name.contains '/'.toNat))
      else
        match matchChunk chunk name with
        | .error e => .error e
        | .ok r =>
          match (match r with
                 | some t => if t = [] ∨ rest ≠ [] then some t else none
                 | none => none) with
          | some t => matchLoop fuel rest t
          | none =>
            if star then
              match starSkip chunk (decide (rest = [])) name with
              | .error e => .error e
              | .ok (some t) => matchLoop fuel rest t
              | .ok none => .ok false
            else .ok false

/-- Go `filepath.Match`: whether `name` matches the shell pattern. -/
def Match (pattern name : String) : Except PathError Bool :=
  matchLoop ((utf8Bytes pattern).length + 1) (utf8Bytes pattern) (utf8Bytes name)

/-! ## The file system -/

/-- A directory entry: the directory it is in (in the `Clean` form under which
`Glob` reads directories), its name, and whether it is a directory itself. -/
structure Node where
  dir : String
  name : String
  isDir : Bool
  deriving DecidableEq, Repr

/-- The path of an entry, as `filepath.Join` builds it. -/
def Node.path (n : Node) : String := Join n.dir n.name

/-- The state of the file system: its entries, and the paths whose removal the
system refuses (permissions, a directory that is not empty, a read-only
mount); the refusals are not changed by the program. -/
structure FS where
  nodes : List Node
  denied : String → Bool

/-- The errors of path resolution: `ENOENT` (an element does not exist; the one
error for which `os.IsNotExist` is true) and `ENOTDIR` (an element that is not
the last one is not a directory). -/
inductive Errno where
  | ENOENT
  | ENOTDIR
  deriving DecidableEq, Repr

/-- Path resolution, element by element as the kernel does it: from the place
`cur` (a directory when `isDir`), an empty element or `.` stays, `..` goes to
the parent, and a name goes to the entry of that name in `cur`; each step needs
`cur` to be a directory.  Returns the place reached and whether it is a
directory. -/
def FS.walk (fs : FS) : String → Bool → List (List Char) → Except Errno (String × Bool)
  | cur, isDir, [] => .ok (cur, isDir)
  | cur, isDir, e :: es =>
    if isDir = false then .error .ENOTDIR
    else if e = [] ∨ e = ['.'] then fs.walk cur true es
    else if e = ['.', '.'] then fs.walk (Join cur "..") true es
    else
      match fs.nodes.find? (fun n => n.dir = cur ∧ n.name = ⟨e⟩) with
      | none => .error .ENOENT
      | some n => fs.walk n.path n.isDir es

/-- The place a path names: the walk over its elements from the root for a
rooted path and from the working directory otherwise; the empty path names
nothing. -/
def FS.locate (fs : FS) (path : String) : Except Errno (String × Bool) :=
  match path.data with
  | [] => .error .ENOENT
  | c :: cs => fs.walk (if c = '/' then "/" else ".") true (splitSep (c :: cs))

/-- Go `os.Stat` (and `os.Lstat`; links are not modelled): whether the path
names a directory, or the error of its resolution. -/
def FS.stat (fs : FS) (path : String) : Except Errno Bool :=
  match fs.locate path with
  | .error e => .error e
  | .ok (_, isDir) => .ok isDir

/-- The entries a path names: the entries at the place it resolves to (none
for the root, the working directory and what lies above it, which are not
entries of the model). -/
def FS.entries (fs : FS) (path : String) : List Node :=
  match fs.locate path with
  | .error _ => []
  | .ok (loc, _) => fs.nodes.filter (fun n => n.path = loc)

/-- Whether a path names an entry of the file system. -/
def FS.fileExists (fs : FS) (path : String) : Bool :=
  !(fs.entries path).isEmpty

/-- Go `os.Remove`: the entry is taken out of its directory, unless the path
names nothing or the system refuses; returns the new state and whether the
call succeeded. -/
def FS.remove (fs : FS) (path : String) : FS × Bool :=
  match fs.locate path with
  | .error _ => (fs, false)
  | .ok (loc, _) =>
    if (fs.nodes.filter (fun n => n.path = loc)).isEmpty ∨ fs.denied path = true then (fs, false)
    else ({ fs with nodes := fs.nodes.filter (fun n => ¬ n.path = loc) }, true)

/-- Go `(*File).Readdirnames(-1)` followed by `slices.Sort`: the names in a
directory, sorted; for UTF-8 the order of the bytes is the order of the code
points. -/
def FS.readdirnames (fs : FS) (dir : String) : List String :=
  ((fs.nodes.filter (fun n => n.dir = dir)).map (fun n => n.name)).insertionSort
    (fun a b => a.data ≤ b.data)

/-! ### `filepath.Glob` -/

/-- The loop of `glob` over the sorted names of a directory: a matching name is
appended as `Join(dir, name)`; a pattern error ends the loop with the matches
found so far. -/
def globNames (dir pattern : String) : List String → List String → List String × Option PathError
  | [], m => (m, none)
  | n :: ns, m =>
    match Match pattern n with
    | .error e => (m, some e)
    | .ok true => globNames dir pattern ns (m ++ [Join dir n])
    | .ok false => globNames dir pattern ns m

/-- Go `filepath.glob`: the entries of `dir` that match `pattern` are appended
to the matches `found`; a `dir` that `os.Stat` fails on, or that is not a
directory, adds nothing and is not an error. -/
def glob (fs : FS) (dir pattern : String) (found : List String) :
    List String × Option PathError :=
  match fs.stat dir with
  | .ok true => globNames dir pattern (fs.readdirnames dir) found
  | _ => (found, none)

/-- The loop `for _, d := range m` of `globWithLimit`. -/
def globDirs (fs : FS) (file : String) : List String → List String → List String × Option PathError
  | [], found => (found, none)
  | d :: ds, found =>
    match glob fs d file found with
    | (found1, some e) => (found1, some e)
    | (found1, none) => globDirs fs file ds found1

/-- Go `filepath.globWithLimit`; `fuel` is `pathSeparatorsLimit - depth`, and
the recursion ends with `ErrBadPattern` when the limit is reached. -/
def globWithLimit (fs : FS) : Nat → String → List String × Option PathError
  | 0, _ => ([], some .ErrBadPattern)
  | fuel + 1, pattern =>
    match Match pattern "" with
    | .error e => ([], some e)
    | .ok _ =>
      if hasMeta pattern = false then
        match fs.stat pattern with
        | .error _ => ([], none)
        | .ok _ => ([pattern], none)
      else
        let dir := cleanGlobPath (Split pattern).1
        let file := (Split pattern).2
        if hasMeta dir = false then glob fs dir file []
        else if dir = pattern then ([], some .ErrBadPattern)
        else
          match globWithLimit fs fuel dir with
          | (_, some e) => ([], some e)
          | (m, none) => globDirs fs file m []

/-- The constant `pathSeparatorsLimit` of `filepath.Glob`. -/
def pathSeparatorsLimit : Nat := 10000

/-- Go `filepath.Glob`: the paths that match the pattern, and an error only
when the pattern is malformed. -/
def Glob (fs : FS) (pattern : String) : List String × Option PathError :=
  globWithLimit fs pathSeparatorsLimit pattern

/-! ## The database -/

/-- The struct `Backup` (main.go:19), a row of the `backups` table; times are
seconds since the epoch, and `none` is SQL `NULL`. -/
structure Backup where
  ID : Nat
  ServerID : Nat
  UUID : String
  UploadID : Option String
  IsSuccessful : Bool
  IsLocked : Bool
  Name : String
  IgnoredFiles : String
  Disk : String
  Checksum : String
  Bytes : Int
  CompletedAt : Int
  CreatedAt : Int
  UpdatedAt : Int
  DeletedAt : Option Int
  deriving DecidableEq, Repr

/-- The database as the program sees it: the rows of `backups`, and the error
with which a query fails, if it fails. -/
structure DB where
  rows : List Backup
  queryError : Option String

/-- A Go `map[string]bool`: its entries, one per key. -/
abbrev GoMap := List (String × Bool)

/-- The keys of a map. -/
def GoMap.keys (m : GoMap) : List String := m.map Prod.fst

/-- The index expression `m[k]`: the stored value, `false` for a missing key. -/
def GoMap.get (m : GoMap) (k : String) : Bool :=
  match m.find? (fun e => e.1 = k) with
  | some e => e.2
  | none => false

/-- The assignment `m[k] = v`: replaces the value of an existing key, adds a
new key otherwise. -/
def GoMap.set (m : GoMap) (k : String) (v : Bool) : GoMap :=
  if k ∈ m.keys then m.map (fun e => if e.1 = k then (k, v) else e)
  else m ++ [(k, v)]

/-- The builtin `len(m)`. -/
def GoMap.len (m : GoMap) : Nat := m.length

/-! ## The program -/

/-- The struct `Config` (main.go:41). -/
structure Config where
  DBHost : String
  DBPort : String
  DBUser : String
  DBPassword : String
  DBName : String
  BackupPath : String
  GCSchedule : String

/-- The errors the program builds with `fmt.Errorf`. -/
inductive AppError where
  /-- Text "failed to query backup records: %v". -/
  | queryFailed (cause : String)
  /-- Text "backup directory does not exist: %s". -/
  | dirNotExist (dir : String)
  /-- Text "failed to read backup directory: %v". -/
  | readDirFailed (cause : PathError)
  deriving DecidableEq, Repr

/-- The lines the program writes with `log.Printf` and `log.Println`, by
format string. -/
inductive LogLine where
  /-- Text "Found %d valid backup records in database". -/
  | foundRecords (n : Nat)
  /-- Text "Found %d backup files". -/
  | foundFiles (n : Nat)
  /-- Text "Skipping file with non-standard UUID format: %s (UUID: %s)". -/
  | skipNonStandard (basename uuid : String)
  /-- Text "Found orphaned backup file: %s (UUID: %s)". -/
  | foundOrphan (basename uuid : String)
  /-- Text "Failed to delete file %s: %v". -/
  | deleteFailed (basename : String)
  /-- Text "Successfully deleted orphaned backup file: %s". -/
  | deleted (basename : String)
  /-- Text "Cleanup completed, deleted %d orphaned backup files". -/
  | cleanupCompleted (deletedCount : Nat)
  /-- Text "Starting backup cleanup task". -/
  | taskStarting
  /-- Text "Failed to get valid backup UUIDs: %v". -/
  | getUUIDsFailed (err : AppError)
  /-- Text "Failed to clean orphaned backup files: %v". -/
  | cleanFailed (err : AppError)
  /-- Text "Backup cleanup task completed". -/
  | taskCompleted
  deriving DecidableEq, Repr

/-- What the program acts on: the file system, the log written so far (oldest
line first), and the `os.Remove` calls made so far with their outcome. -/
structure World where
  fs : FS
  log : List LogLine
  removeCalls : List (String × Bool)

/-- A `log.Printf` call. -/
def World.logf (w : World) (l : LogLine) : World :=
  { w with log := w.log ++ [l] }

/-- An `os.Remove` call: the file system changes as `FS.remove` says and the
call is recorded; returns whether it succeeded (`err == nil`). -/
def World.osRemove (w : World) (file : String) : World × Bool :=
  let r := w.fs.remove file
  ({ w with fs := r.1, removeCalls := w.removeCalls ++ [(file, r.2)] }, r.2)

/-- The function `getValidBackupUUIDs` (main.go:89): the rows with
`deleted_at IS NULL` are queried and their `uuid` made the keys of a map; a
failed query is returned as an error. -/
def getValidBackupUUIDs (db : DB) (w : World) : Except AppError GoMap × World :=
  match db.queryError with
  | some e => (.error (.queryFailed e), w)
  | none =>
    let backups := db.rows.filter (fun b => b.DeletedAt = none)
    let validUUIDs := backups.foldl (fun (m : GoMap) backup => m.set backup.UUID true) []
    (.ok validUUIDs, w.logf (.foundRecords validUUIDs.len))

/-- The loop `for _, file := range files` of `cleanOrphanedBackups`
(main.go:132-156), with the counter `deletedCount`. -/
def sweepFiles (tbl : Char → Char) (validUUIDs : GoMap) : List String → Nat → World → Nat × World
  | [], deletedCount, w => (deletedCount, w)
  | file :: files, deletedCount, w =>
    let basename := Base file
    let uuid := TrimSuffix basename ".tar.gz"
    if isValidUUID tbl uuid = false then
      sweepFiles tbl validUUIDs files deletedCount (w.logf (.skipNonStandard basename uuid))
    else if validUUIDs.get uuid = false then
      let w1 := w.logf (.foundOrphan basename uuid)
      let r := w1.osRemove file
      if r.2 = false then
        sweepFiles tbl validUUIDs files deletedCount (r.1.logf (.deleteFailed basename))
      else
        sweepFiles tbl validUUIDs files (deletedCount + 1) (r.1.logf (.deleted basename))
    else
      sweepFiles tbl validUUIDs files deletedCount w

/-- The function `cleanOrphanedBackups` (main.go:115): returns the error
(`none` is `nil`) and the state it leaves. -/
def cleanOrphanedBackups (tbl : Char → Char) (config : Config) (validUUIDs : GoMap) (w : World) :
    Option AppError × World :=
  let backupDir := config.BackupPath
  if w.fs.stat backupDir = .error .ENOENT then
    (some (.dirNotExist backupDir), w)
  else
    match Glob w.fs (Join backupDir "*.tar.gz") with
    | (_, some e) => (some (.readDirFailed e), w)
    | (files, none) =>
      let w1 := w.logf (.foundFiles files.length)
      let r := sweepFiles tbl validUUIDs files 0 w1
      (none, r.2.logf (.cleanupCompleted r.1))

/-- The function `runCleanup` (main.go:162). -/
def runCleanup (tbl : Char → Char) (config : Config) (db : DB) (w : World) : World :=
  let w0 := w.logf .taskStarting
  match getValidBackupUUIDs db w0 with
  | (.error err, w1) => w1.logf (.getUUIDsFailed err)
  | (.ok validUUIDs, w1) =>
    match cleanOrphanedBackups tbl config validUUIDs w1 with
    | (some err, w2) => w2.logf (.cleanFailed err)
    | (none, w2) => w2.logf .taskCompleted

/-! ## Definitions used in the statements -/

/-- The identifier the program extracts from a path (main.go:134-135). -/
def extractUUID (file : String) : String := TrimSuffix (Base file) ".tar.gz"

/-- The files the loop decides to remove: the extracted identifier passes
`isValidUUID` and the lookup `validUUIDs[uuid]` is false. -/
def isOrphan (tbl : Char → Char) (validUUIDs : GoMap) (file : String) : Bool :=
  isValidUUID tbl (extractUUID file) && !validUUIDs.get (extractUUID file)

/-- The state after the iteration of the loop that removes, or fails to remove, `file`. -/
def afterRemove (w : World) (file : String) : World :=
  { fs := (w.fs.remove file).1
    log := w.log ++ [.foundOrphan (Base file) (extractUUID file)] ++
      [if (w.fs.remove file).2 then .deleted (Base file) else .deleteFailed (Base file)]
    removeCalls := w.removeCalls ++ [(file, (w.fs.remove file).2)] }

/-- The matches `glob` adds for one directory. -/
def globList (fs : FS) (dir file : String) : List String :=
  match fs.stat dir with
  | .ok true =>
    ((fs.readdirnames dir).filter (fun n => decide (Match file n = .ok true))).map (Join dir)
  | _ => []

/-- The file system `fs'` is `fs` with all entries of some paths taken out. -/
def FS.Shrunk (fs' fs : FS) : Prop :=
  fs'.denied = fs.denied ∧
    ∃ gone : String → Bool, fs'.nodes = fs.nodes.filter (fun n => !gone n.path)

/-- No two entries of the file system have the same path. -/
def FS.WF (fs : FS) : Prop := (fs.nodes.map Node.path).Nodup

/-- The `os.Remove` calls made between the state `w` and the later state `r`. -/
def newCalls (w r : World) : List (String × Bool) :=
  r.removeCalls.drop w.removeCalls.length

/-- A hexadecimal digit: `0-9`, `a-f` or `A-F`. -/
def isHexDigit (c : Char) : Bool :=
  (decide ('0' ≤ c) && decide (c ≤ '9')) || (decide ('a' ≤ c) && decide (c ≤ 'f')) ||
    (decide ('A' ≤ c) && decide (c ≤ 'F'))

/-- The shape of a canonical UUID, position by position: 36 code points, `-` at
the positions 8, 13, 18 and 23 and a hexadecimal digit at every other one. -/
def IsCanonicalUUID (s : String) : Prop :=
  s.length = 36 ∧ ∀ (i : Nat) (h : i < s.data.length),
    if i = 8 ∨ i = 13 ∨ i = 18 ∨ i = 23 then s.data.get ⟨i, h⟩ = '-'
    else isHexDigit (s.data.get ⟨i, h⟩) = true

/-! ## Example states -/

/-- The entries of the Unicode case table whose lower case is an ASCII letter
(U+0130 to `i`, U+212A to `k`); the other code points are left as they are,
which is enough for the examples. -/
def sampleTable (c : Char) : Char :=
  if c = Char.ofNat 0x130 then 'i' else if c = Char.ofNat 0x212A then 'k' else c

/-- A configuration with the given backup directory and the defaults of
`loadConfig` for the rest. -/
def configFor (backupPath : String) : Config :=
  { DBHost := "localhost", DBPort := "3306", DBUser := "pterodactyl", DBPassword := "",
    DBName := "panel", BackupPath := backupPath, GCSchedule := "0 2 * * *" }

/-- The directory of the example scenario of the specification. -/
def scenarioNodes : List Node :=
  [ ⟨"/", "mnt", true⟩,
    ⟨"/mnt", "pterodactyl", true⟩,
    ⟨"/mnt/pterodactyl", "a1b2c3d4-e5f6-4a1b-8c2d-1234567890ab.tar.gz", false⟩,
    ⟨"/mnt/pterodactyl", "ffffffff-ffff-ffff-ffff-ffffffffffff.tar.gz", false⟩,
    ⟨"/mnt/pterodactyl", "notauuid.tar.gz", false⟩,
    ⟨"/mnt/pterodactyl", "readme.txt", false⟩ ]

/-- The example scenario before the run: nothing logged, nothing removed, no
removal refused. -/
def scenarioWorld : World :=
  { fs := { nodes := scenarioNodes, denied := fun _ => false }, log := [], removeCalls := [] }

/-- The live set of the example scenario. -/
def scenarioLive : GoMap := [("a1b2c3d4-e5f6-4a1b-8c2d-1234567890ab", true)]

/-- The example scenario with a second orphaned file, one that the system
refuses to remove. -/
def scenarioRefused : World :=
  { fs := { nodes := scenarioNodes ++
              [⟨"/mnt/pterodactyl", "00000000-0000-0000-0000-000000000000.tar.gz", false⟩],
            denied := fun p => p = "/mnt/pterodactyl/00000000-0000-0000-0000-000000000000.tar.gz" },
    log := [], removeCalls := [] }

/-- A row of server 1 with the given key, identifier and deletion time. -/
def sampleRow (id : Nat) (uuid : String) (deletedAt : Option Int) : Backup :=
  { ID := id, ServerID := 1, UUID := uuid, UploadID := none, IsSuccessful := true,
    IsLocked := false, Name := "nightly", IgnoredFiles := "[]", Disk := "wings",
    Checksum := "sha1:0", Bytes := 1024, CompletedAt := 1700000000, CreatedAt := 1700000000,
    UpdatedAt := 1700000000, DeletedAt := deletedAt }

/-- A table with two live rows that carry the same identifier, one live row in
upper case, and one soft-deleted row. -/
def sampleDB : DB :=
  { rows :=
      [ sampleRow 1 "a1b2c3d4-e5f6-4a1b-8c2d-1234567890ab" none,
        sampleRow 2 "0b0b0b0b-0000-4000-8000-000000000002" (some 1700000500),
        sampleRow 3 "a1b2c3d4-e5f6-4a1b-8c2d-1234567890ab" none,
        sampleRow 4 "ABCDEF01-0000-4000-8000-000000000004" none ],
    queryError := none }

/-- The example scenario with the archive of the live backup stored under an
upper-case name. -/
def upperCaseWorld : World :=
  { fs := { nodes :=
              [ ⟨"/", "mnt", true⟩,
                ⟨"/mnt", "pterodactyl", true⟩,
                ⟨"/mnt/pterodactyl", "A1B2C3D4-E5F6-4A1B-8C2D-1234567890AB.tar.gz", false⟩ ],
            denied := fun _ => false },
    log := [], removeCalls := [] }

/-- A configured directory whose name contains a bracket expression, next to a
directory that the name matches when it is read as a pattern. -/
def bracketWorld : World :=
  { fs := { nodes :=
              [ ⟨"/", "mnt", true⟩,
                ⟨"/mnt", "backup[1]", true⟩,
                ⟨"/mnt", "backup1", true⟩,
                ⟨"/mnt/backup[1]", "ffffffff-ffff-ffff-ffff-ffffffffffff.tar.gz", false⟩,
                ⟨"/mnt/backup1", "eeeeeeee-eeee-eeee-eeee-eeeeeeeeeeee.tar.gz", false⟩ ],
            denied := fun _ => false },
    log := [], removeCalls := [] }

/-- A configured directory whose name contains a star, next to a directory
that the name matches when it is read as a pattern. -/
def starWorld : World :=
  { fs := { nodes :=
              [ ⟨"/", "srv", true⟩,
                ⟨"/srv", "backup*", true⟩,
                ⟨"/srv", "backup-of-other-node", true⟩,
                ⟨"/srv/backup-of-other-node", "eeeeeeee-eeee-eeee-eeee-eeeeeeeeeeee.tar.gz", false⟩ ],
            denied := fun _ => false },
    log := [], removeCalls := [] }

/-! ## The fuel of `Match` -/

theorem decodeRune_width (b : Nat) (t : List Nat) : 1 ≤ (decodeRune (b :: t)).2 := by
  unfold decodeRune
  simp only
  repeat' split
  all_goals simp

theorem getEsc_length {chunk : List Nat} {r : Nat} {n : List Nat}
    (h : getEsc chunk = some (r, n)) : n.length < chunk.length := by
  unfold getEsc at h
  cases chunk with
  | nil => simp at h
  | cons c t =>
    simp only at h
    by_cases hd : c = '-'.toNat ∨ c = ']'.toNat
    · rw [if_pos hd] at h; simp at h
    · rw [if_neg hd] at h
      have key : ∀ (l : List Nat), l.length ≤ (c :: t).length →
          (match l with
            | [] => none
            | b :: t1 =>
              if (decodeRune (b :: t1)).1 = RuneError ∧ (decodeRune (b :: t1)).2 = 1 then none
              else if (b :: t1).drop (decodeRune (b :: t1)).2 = [] then none
              else some ((decodeRune (b :: t1)).1, (b :: t1).drop (decodeRune (b :: t1)).2)) =
            some (r, n) → n.length < (c :: t).length := by
        intro l hl hm
        cases l with
        | nil => simp at hm
        | cons b t1 =>
          simp only at hm
          split at hm
          · simp at hm
          · split at hm
            · simp at hm
            · simp only [Option.some.injEq, Prod.mk.injEq] at hm
              rw [← hm.2]
              have := decodeRune_width b t1
              simp only [List.length_drop]
              simp only [List.length_cons] at hl ⊢
              omega
      by_cases hc : c = '\\'.toNat
      · rw [if_pos hc] at h
        exact key t (by simp) h
      · rw [if_neg hc] at h
        exact key (c :: t) (Nat.le_refl _) h

theorem classLoop_length : ∀ (fuel : Nat) (chunk : List Nat) (r : Nat) (nrange : Nat)
    (matched b : Bool) (c2 : List Nat),
    classLoop fuel chunk r nrange matched = some (b, c2) → c2.length < chunk.length := by
  intro fuel
  induction fuel with
  | zero => intro chunk r nrange matched b c2 h; simp [classLoop] at h
  | succ fuel ih =>
    intro chunk r nrange matched b c2 h
    rw [classLoop] at h
    by_cases hc : chunk.head? = some ']'.toNat ∧ nrange > 0
    · rw [if_pos hc] at h
      simp only [Option.some.injEq, Prod.mk.injEq] at h
      rw [← h.2]
      cases chunk with
      | nil => simp at hc
      | cons c t => simp
    · rw [if_neg hc] at h
      rcases hesc : getEsc chunk with _ | ⟨lo, chunk1⟩
      · rw [hesc] at h; simp at h
      · rw [hesc] at h
        simp only at h
        have l1 := getEsc_length hesc
        by_cases hm : chunk1.head? = some '-'.toNat
        · rw [if_pos hm] at h
          rcases hesc2 : getEsc chunk1.tail with _ | ⟨hi, chunk2⟩
          · rw [hesc2] at h; simp at h
          · rw [hesc2] at h
            simp only at h
            have l2 := getEsc_length hesc2
            have := ih _ _ _ _ _ _ h
            simp only [List.length_tail] at l2
            omega
        · rw [if_neg hm] at h
          have := ih _ _ _ _ _ _ h
          omega

theorem classLoop_fuel : ∀ (f1 f2 : Nat) (chunk : List Nat) (r : Nat) (nrange : Nat)
    (matched : Bool), chunk.length < f1 → chunk.length < f2 →
    classLoop f1 chunk r nrange matched = classLoop f2 chunk r nrange matched := by
  intro f1
  induction f1 with
  | zero => intro f2 chunk r nrange matched h1 _; omega
  | succ f1 ih =>
    intro f2 chunk r nrange matched h1 h2
    cases f2 with
    | zero => omega
    | succ f2 =>
      rw [classLoop, classLoop]
      by_cases hc : chunk.head? = some ']'.toNat ∧ nrange > 0
      · rw [if_pos hc, if_pos hc]
      · rw [if_neg hc, if_neg hc]
        rcases hesc : getEsc chunk with _ | ⟨lo, chunk1⟩
        · rfl
        · simp only
          have l1 := getEsc_length hesc
          by_cases hm : chunk1.head? = some '-'.toNat
          · rw [if_pos hm, if_pos hm]
            rcases hesc2 : getEsc chunk1.tail with _ | ⟨hi, chunk2⟩
            · rfl
            · simp only
              have l2 := getEsc_length hesc2
              simp only [List.length_tail] at l2
              exact ih _ _ _ _ _ (by omega) (by omega)
          · rw [if_neg hm, if_neg hm]
            exact ih _ _ _ _ _ (by omega) (by omega)

/-- The result of `matchChunk` does not depend on the fuel once the fuel is
above the length of the chunk. -/
theorem matchChunkAux_fuel : ∀ (f1 f2 : Nat) (chunk s : List Nat) (failed : Bool),
    chunk.length < f1 → chunk.length < f2 →
    matchChunkAux f1 chunk s failed = matchChunkAux f2 chunk s failed := by
  intro f1
  induction f1 with
  | zero => intro f2 chunk s failed h1 _; omega
  | succ f1 ih =>
    intro f2 chunk s failed h1 h2
    cases f2 with
    | zero => omega
    | succ f2 =>
      cases chunk with
      | nil => simp [matchChunkAux]
      | cons c rest =>
        simp only [List.length_cons] at h1 h2
        rw [matchChunkAux.eq_def, matchChunkAux.eq_def]
        simp only
        by_cases hb : c = '['.toNat
        · rw [if_pos hb, if_pos hb]
          have hlen : (if decide (rest.head? = some '^'.toNat) = true then rest.tail else rest).length
              ≤ rest.length := by
            split
            · simp
            · exact Nat.le_refl _
          rw [classLoop_fuel f1 f2 _ _ _ _ (by omega) (by omega)]
          rcases hcl : classLoop f2 (if decide (rest.head? = some '^'.toNat) = true then rest.tail
            else rest) _ 0 false with _ | ⟨m, chunk2⟩
          · rfl
          · simp only
            have := classLoop_length _ _ _ _ _ _ _ hcl
            exact ih _ _ _ _ (by omega) (by omega)
        · rw [if_neg hb, if_neg hb]
          by_cases hq : c = '?'.toNat
          · rw [if_pos hq, if_pos hq]
            exact ih _ _ _ _ (by omega) (by omega)
          · rw [if_neg hq, if_neg hq]
            by_cases he : c = '\\'.toNat
            · rw [if_pos he, if_pos he]
              cases rest with
              | nil => rfl
              | cons c2 rest2 =>
                simp only [List.length_cons] at h1 h2
                exact ih _ _ _ _ (by omega) (by omega)
            · rw [if_neg he, if_neg he]
              exact ih _ _ _ _ (by omega) (by omega)

theorem scanBody_length : ∀ (n : Nat) (inrange : Bool) (p : List Nat), p.length = n →
    (scanBody inrange p).1.length + (scanBody inrange p).2.length = p.length := by
  intro n
  induction n using Nat.strong_induction_on with
  | _ n ih =>
    intro inrange p hp
    cases p with
    | nil => simp [scanBody]
    | cons c t =>
      simp only [List.length_cons] at hp
      rw [scanBody.eq_def]
      simp only
      by_cases he : c = '\\'.toNat
      · rw [if_pos he]
        cases t with
        | nil => simp
        | cons c2 t2 =>
          simp only [List.length_cons] at hp
          have := ih t2.length (by omega) inrange t2 rfl
          simp only [List.length_cons]
          omega
      · rw [if_neg he]
        by_cases hb : c = '['.toNat
        · rw [if_pos hb]
          have := ih t.length (by omega) true t rfl
          simp only [List.length_cons]
          omega
        · rw [if_neg hb]
          by_cases hc : c = ']'.toNat
          · rw [if_pos hc]
            have := ih t.length (by omega) false t rfl
            simp only [List.length_cons]
            omega
          · rw [if_neg hc]
            by_cases hs : c = '*'.toNat
            · rw [if_pos hs]
              cases inrange with
              | false => simp
              | true =>
                have := ih t.length (by omega) true t rfl
                simp only [if_true, List.length_cons]
                omega
            · rw [if_neg hs]
              have := ih t.length (by omega) inrange t rfl
              simp only [List.length_cons]
              omega

theorem scanBody_chunk_ne_nil (c : Nat) (t : List Nat) (hc : c ≠ '*'.toNat) :
    (scanBody false (c :: t)).1 ≠ [] := by
  rw [scanBody.eq_def]
  simp only
  by_cases he : c = '\\'.toNat
  · rw [if_pos he]
    cases t with
    | nil => simp
    | cons c2 t2 => simp
  · rw [if_neg he]
    by_cases hb : c = '['.toNat
    · rw [if_pos hb]; simp
    · rw [if_neg hb]
      by_cases hk : c = ']'.toNat
      · rw [if_pos hk]; simp
      · rw [if_neg hk, if_neg hc]; simp

theorem dropWhile_star_length (p : List Nat) :
    (p.dropWhile (· = '*'.toNat)).length ≤ p.length := by
  induction p with
  | nil => simp
  | cons c t ih =>
    rw [List.dropWhile_cons]
    split
    · simp only [List.length_cons]; omega
    · exact Nat.le_refl _

/-- Every call of `scanChunk` on a pattern that is not empty leaves a shorter
pattern. -/
theorem scanChunk_rest_length (pattern : List Nat) (h : pattern ≠ []) :
    (scanChunk pattern).2.2.length < pattern.length := by
  unfold scanChunk
  simp only
  have hb := scanBody_length _ false (pattern.dropWhile (· = '*'.toNat)) rfl
  have hd := dropWhile_star_length pattern
  cases pattern with
  | nil => exact absurd rfl h
  | cons c t =>
    by_cases hc : c = '*'.toNat
    · have : ((c :: t).dropWhile (· = '*'.toNat)).length ≤ t.length := by
        rw [List.dropWhile_cons, if_pos (by simpa using hc)]
        exact dropWhile_star_length t
      simp only [List.length_cons]
      omega
    · have hdw : (c :: t).dropWhile (· = '*'.toNat) = c :: t := by
        rw [List.dropWhile_cons, if_neg (by simpa using hc)]
      rw [hdw] at hb ⊢
      have hne := scanBody_chunk_ne_nil c t hc
      have : 0 < (scanBody false (c :: t)).1.length := List.length_pos.mpr hne
      omega

/-- The result of `Match` does not depend on the fuel once the fuel is above
the length of the pattern: the bound `Match` starts with is never reached. -/
theorem matchLoop_fuel : ∀ (f1 f2 : Nat) (pattern name : List Nat),
    pattern.length < f1 → pattern.length < f2 →
    matchLoop f1 pattern name = matchLoop f2 pattern name := by
  intro f1
  induction f1 with
  | zero => intro f2 pattern name h1 _; omega
  | succ f1 ih =>
    intro f2 pattern name h1 h2
    cases f2 with
    | zero => omega
    | succ f2 =>
      rw [matchLoop, matchLoop]
      by_cases hp : pattern = []
      · rw [if_pos hp, if_pos hp]
      · rw [if_neg hp, if_neg hp]
        have hl := scanChunk_rest_length pattern hp
        rcases hsc : scanChunk pattern with ⟨star, chunk, rest⟩
        rw [hsc] at hl
        simp only at hl ⊢
        by_cases hs : star = true ∧ chunk = []
        · rw [if_pos hs, if_pos hs]
        · rw [if_neg hs, if_neg hs]
          rcases matchChunk chunk name with e | r
          · rfl
          · simp only
            split
            · exact ih _ _ _ (by omega) (by omega)
            · by_cases hst : star = true
              · rw [if_pos hst, if_pos hst]
                rcases starSkip chunk (decide (rest = [])) name with e | r2
                · rfl
                · cases r2 with
                  | none => rfl
                  | some t => exact ih _ _ _ (by omega) (by omega)
              · rw [if_neg hst, if_neg hst]

/-- More fuel than `matchChunk` starts with gives the same result. -/
theorem matchChunk_fuel (chunk s : List Nat) (k : Nat) :
    matchChunkAux (chunk.length + 1 + k) chunk s false = matchChunk chunk s :=
  matchChunkAux_fuel _ _ chunk s false (by omega) (by omega)

/-- More fuel than `Match` starts with gives the same result. -/
theorem Match_fuel (pattern name : String) (k : Nat) :
    matchLoop ((utf8Bytes pattern).length + 1 + k) (utf8Bytes pattern) (utf8Bytes name) =
      Match pattern name :=
  matchLoop_fuel _ _ (utf8Bytes pattern) (utf8Bytes name) (by omega) (by omega)

/-! ## Path resolution and removal -/

theorem FS.Shrunk.refl (fs : FS) : fs.Shrunk fs :=
  ⟨rfl, fun _ => false, by simp⟩

theorem FS.Shrunk.trans {a b c : FS} (h1 : a.Shrunk b) (h2 : b.Shrunk c) : a.Shrunk c := by
  obtain ⟨d1, g1, n1⟩ := h1
  obtain ⟨d2, g2, n2⟩ := h2
  refine ⟨d1.trans d2, fun p => g2 p || g1 p, ?_⟩
  rw [n1, n2, List.filter_filter]
  apply List.filter_congr
  intro n _
  show (!g1 n.path && !g2 n.path) = !(g2 n.path || g1 n.path)
  cases g1 n.path <;> cases g2 n.path <;> rfl

theorem FS.Shrunk.mem {fs' fs : FS} (h : fs'.Shrunk fs) {n : Node} (hn : n ∈ fs'.nodes) :
    n ∈ fs.nodes := by
  obtain ⟨_, gone, hnodes⟩ := h
  rw [hnodes] at hn
  exact (List.mem_filter.mp hn).1

theorem find?_filter_of_imp (p q : Node → Bool) (hq : ∀ a, p a = true → q a = true)
    (l : List Node) (n : Node) (hf : (l.filter q).find? p = some n) : l.find? p = some n := by
  induction l with
  | nil => simp at hf
  | cons a l ih =>
    by_cases hp : p a = true
    · rw [List.filter_cons_of_pos (hq a hp), List.find?_cons_of_pos _ hp] at hf
      rw [List.find?_cons_of_pos _ hp]
      exact hf
    · rw [List.find?_cons_of_neg _ hp]
      apply ih
      by_cases hqa : q a = true
      · rw [List.filter_cons_of_pos hqa, List.find?_cons_of_neg _ hp] at hf
        exact hf
      · rw [List.filter_cons_of_neg hqa] at hf
        exact hf

/-- The first entry with a given directory and name is the same in a shrunk
file system, when it is still there: entries with the same directory and name
have the same path and are taken out together. -/
theorem find?_shrunk {fs' fs : FS} (h : fs'.Shrunk fs) (cur name : String) (n : Node)
    (hf : fs'.nodes.find? (fun n => n.dir = cur ∧ n.name = name) = some n) :
    fs.nodes.find? (fun n => n.dir = cur ∧ n.name = name) = some n := by
  obtain ⟨_, gone, hnodes⟩ := h
  rw [hnodes] at hf
  have hn := List.find?_some hf
  have hmem := List.mem_of_find?_eq_some hf
  simp only [decide_eq_true_eq] at hn
  have hkeep : gone n.path = false := by
    have := (List.mem_filter.mp hmem).2
    simpa using this
  apply find?_filter_of_imp _ (fun n => !gone n.path) _ _ _ hf
  intro a ha
  simp only [decide_eq_true_eq] at ha
  have hpath : a.path = n.path := by
    simp only [Node.path, ha.1, ha.2, hn.1, hn.2]
  show (!gone a.path) = true
  rw [hpath, hkeep]
  rfl

theorem walk_shrunk {fs' fs : FS} (h : fs'.Shrunk fs) (es : List (List Char)) :
    ∀ (cur : String) (isDir : Bool) (r : String × Bool),
      fs'.walk cur isDir es = .ok r → fs.walk cur isDir es = .ok r := by
  induction es with
  | nil => intro cur isDir r hw; simpa [FS.walk] using hw
  | cons e es ih =>
    intro cur isDir r hw
    rw [FS.walk] at hw ⊢
    by_cases hd : isDir = false
    · rw [if_pos hd] at hw; simp at hw
    · rw [if_neg hd] at hw ⊢
      by_cases h1 : e = [] ∨ e = ['.']
      · rw [if_pos h1] at hw ⊢
        exact ih _ _ _ hw
      · rw [if_neg h1] at hw ⊢
        by_cases h2 : e = ['.', '.']
        · rw [if_pos h2] at hw ⊢
          exact ih _ _ _ hw
        · rw [if_neg h2] at hw ⊢
          rcases hf : fs'.nodes.find? (fun n => n.dir = cur ∧ n.name = ⟨e⟩) with _ | n
          · rw [hf] at hw; simp at hw
          · rw [hf] at hw
            rw [find?_shrunk h cur ⟨e⟩ n hf]
            exact ih _ _ _ hw

theorem locate_shrunk {fs' fs : FS} (h : fs'.Shrunk fs) (p : String) (r : String × Bool)
    (hl : fs'.locate p = .ok r) : fs.locate p = .ok r := by
  unfold FS.locate at *
  cases hp : p.data with
  | nil => rw [hp] at hl; simp at hl
  | cons c cs =>
    rw [hp] at hl
    exact walk_shrunk h _ _ _ _ hl

theorem stat_shrunk {fs' fs : FS} (h : fs'.Shrunk fs) (p : String) (b : Bool)
    (hs : fs'.stat p = .ok b) : fs.stat p = .ok b := by
  unfold FS.stat at *
  rcases hl : fs'.locate p with e | ⟨loc, d⟩
  · rw [hl] at hs; simp at hs
  · rw [hl] at hs
    rw [locate_shrunk h p _ hl]
    exact hs

theorem mem_entries {fs : FS} {p : String} {n : Node} (hn : n ∈ fs.entries p) :
    n ∈ fs.nodes ∧ ∃ d, fs.locate p = .ok (n.path, d) := by
  unfold FS.entries at hn
  rcases hl : fs.locate p with e | ⟨loc, d⟩
  · rw [hl] at hn; simp at hn
  · rw [hl] at hn
    simp only [List.mem_filter, decide_eq_true_eq] at hn
    exact ⟨hn.1, d, by rw [hn.2]⟩

theorem mem_entries_of {fs : FS} {p : String} {n : Node} {d : Bool} (hn : n ∈ fs.nodes)
    (hl : fs.locate p = .ok (n.path, d)) : n ∈ fs.entries p := by
  unfold FS.entries
  rw [hl]
  simp [hn]

/-- An entry that a path names in a shrunk file system is named by the same
path in the file system it was shrunk from. -/
theorem entries_shrunk {fs' fs : FS} (h : fs'.Shrunk fs) (p : String) {n : Node}
    (hn : n ∈ fs'.entries p) : n ∈ fs.entries p := by
  obtain ⟨hmem, d, hl⟩ := mem_entries hn
  exact mem_entries_of (h.mem hmem) (locate_shrunk h p _ hl)

theorem remove_denied (fs : FS) (p : String) : (fs.remove p).1.denied = fs.denied := by
  unfold FS.remove
  split
  · rfl
  · split <;> rfl

theorem remove_shrunk (fs : FS) (p : String) : (fs.remove p).1.Shrunk fs := by
  unfold FS.remove
  rcases hl : fs.locate p with e | ⟨loc, d⟩
  · exact FS.Shrunk.refl fs
  · simp only
    split
    · exact FS.Shrunk.refl fs
    · refine ⟨rfl, fun q => decide (q = loc), ?_⟩
      simp

theorem remove_of_quiet (fs : FS) (p : String)
    (h : fs.denied p = true ∨ fs.entries p = []) : fs.remove p = (fs, false) := by
  unfold FS.remove
  unfold FS.entries at h
  rcases hl : fs.locate p with e | ⟨loc, d⟩
  · rfl
  · rw [hl] at h
    simp only at h ⊢
    rw [if_pos]
    rcases h with h | h
    · exact Or.inr h
    · exact Or.inl (by rw [h]; rfl)

/-- After `os.Remove` on a path that the system does not refuse, the path
names no entry. -/
theorem remove_entries (fs : FS) (p : String) (hd : fs.denied p = false) :
    (fs.remove p).1.entries p = [] := by
  rw [List.eq_nil_iff_forall_not_mem]
  intro n hn
  have hold := entries_shrunk (remove_shrunk fs p) p hn
  have hnew := (mem_entries hn).1
  obtain ⟨_, d, hl⟩ := mem_entries hold
  unfold FS.remove at hnew
  rw [hl] at hnew
  simp only at hnew
  by_cases hc : (fs.nodes.filter (fun m => decide (m.path = n.path))).isEmpty = true ∨
      fs.denied p = true
  · rcases hc with hc | hc
    · have hmem : n ∈ fs.nodes.filter (fun m => decide (m.path = n.path)) := by
        simp [(mem_entries hold).1]
      rw [List.isEmpty_iff.mp hc] at hmem
      simp at hmem
    · rw [hd] at hc; simp at hc
  · rw [if_neg hc] at hnew
    simp at hnew

/-- An entry that `os.Remove` takes out is one its path names. -/
theorem remove_vanished (fs : FS) (p : String) {n : Node} (hn : n ∈ fs.nodes)
    (hgone : n ∉ (fs.remove p).1.nodes) : n ∈ fs.entries p := by
  unfold FS.remove at hgone
  unfold FS.entries
  rcases hl : fs.locate p with e | ⟨loc, d⟩
  · rw [hl] at hgone; exact absurd hn hgone
  · rw [hl] at hgone
    simp only at hgone ⊢
    split at hgone
    · exact absurd hn hgone
    · simp only [List.mem_filter, decide_eq_true_eq, not_and, not_not] at hgone
      simp [hn, hgone hn]

/-! ## What the loop does -/

theorem sweepFiles_nil (tbl : Char → Char) (m : GoMap) (d : Nat) (w : World) :
    sweepFiles tbl m [] d w = (d, w) := rfl

theorem sweepFiles_skip (tbl : Char → Char) (m : GoMap) (file : String) (files : List String)
    (d : Nat) (w : World) (h : isOrphan tbl m file = false) :
    ∃ w1 : World, w1.fs = w.fs ∧ w1.removeCalls = w.removeCalls ∧
      sweepFiles tbl m (file :: files) d w = sweepFiles tbl m files d w1 := by
  by_cases hv : isValidUUID tbl (extractUUID file) = false
  · refine ⟨w.logf (.skipNonStandard (Base file) (extractUUID file)), rfl, rfl, ?_⟩
    rw [sweepFiles]
    simp only [extractUUID] at hv
    simp only [hv, if_true]
    rfl
  · have hv1 : isValidUUID tbl (extractUUID file) = true := by simpa using hv
    have hg : m.get (extractUUID file) = true := by
      simpa [isOrphan, hv1] using h
    refine ⟨w, rfl, rfl, ?_⟩
    rw [sweepFiles]
    simp only [extractUUID] at hv1 hg
    simp [hv1, hg]

theorem sweepFiles_orphan (tbl : Char → Char) (m : GoMap) (file : String) (files : List String)
    (d : Nat) (w : World) (h : isOrphan tbl m file = true) :
    sweepFiles tbl m (file :: files) d w =
      sweepFiles tbl m files (if (w.fs.remove file).2 then d + 1 else d) (afterRemove w file) := by
  have hv1 : isValidUUID tbl (TrimSuffix (Base file) ".tar.gz") = true := by
    simp [isOrphan, extractUUID] at h; exact h.1
  have hg : m.get (TrimSuffix (Base file) ".tar.gz") = false := by
    simp [isOrphan, extractUUID] at h; exact h.2
  rw [sweepFiles]
  simp only [hv1, hg, if_true, Bool.true_eq_false, if_false]
  cases hr : (w.fs.remove file).2
  · simp [World.osRemove, World.logf, afterRemove, hr, extractUUID]
  · simp [World.osRemove, World.logf, afterRemove, hr, extractUUID]

/-- The loop only takes entries out: the file system it leaves is the one it
started in with the entries of some paths removed, and the refusals are the
same. -/
theorem sweepFiles_shrunk (tbl : Char → Char) (m : GoMap) (files : List String) :
    ∀ (d : Nat) (w : World), (sweepFiles tbl m files d w).2.fs.Shrunk w.fs := by
  induction files with
  | nil => intro d w; exact FS.Shrunk.refl _
  | cons file files ih =>
    intro d w
    cases ho : isOrphan tbl m file
    · obtain ⟨w1, hfs, _, heq⟩ := sweepFiles_skip tbl m file files d w ho
      rw [heq, ← hfs]
      exact ih d w1
    · rw [sweepFiles_orphan tbl m file files d w ho]
      exact (ih _ (afterRemove w file)).trans (remove_shrunk w.fs file)

/-- After the loop, a file it decided to remove and the system did not refuse
names no entry. -/
theorem sweepFiles_gone (tbl : Char → Char) (m : GoMap) (files : List String) :
    ∀ (d : Nat) (w : World) (f : String), f ∈ files → isOrphan tbl m f = true →
      w.fs.denied f = false → (sweepFiles tbl m files d w).2.fs.entries f = [] := by
  induction files with
  | nil => intro d w f hf; simp at hf
  | cons file files ih =>
    intro d w f hf ho hd
    cases hofile : isOrphan tbl m file
    · obtain ⟨w1, hfs, _, heq⟩ := sweepFiles_skip tbl m file files d w hofile
      rw [heq]
      rcases List.mem_cons.mp hf with rfl | hf
      · rw [ho] at hofile; simp at hofile
      · exact ih d w1 f hf ho (by rw [hfs]; exact hd)
    · rw [sweepFiles_orphan tbl m file files d w hofile]
      rcases List.mem_cons.mp hf with rfl | hf
      · rw [List.eq_nil_iff_forall_not_mem]
        intro n hn
        have h1 := entries_shrunk (sweepFiles_shrunk tbl m files _ (afterRemove w f)) f hn
        have h2 : (afterRemove w f).fs.entries f = [] := remove_entries w.fs f hd
        rw [h2] at h1
        simp at h1
      · exact ih _ (afterRemove w file) f hf ho
          (by rw [show (afterRemove w file).fs.denied = w.fs.denied from remove_denied _ _]; exact hd)

/-- An entry that is gone after the loop is named by a file the loop decided
to remove. -/
theorem sweepFiles_vanished (tbl : Char → Char) (m : GoMap) (files : List String) :
    ∀ (d : Nat) (w : World) (n : Node), n ∈ w.fs.nodes →
      n ∉ (sweepFiles tbl m files d w).2.fs.nodes →
      ∃ f ∈ files, isOrphan tbl m f = true ∧ n ∈ w.fs.entries f := by
  induction files with
  | nil => intro d w n hn hgone; exact absurd hn hgone
  | cons file files ih =>
    intro d w n hn hgone
    cases hofile : isOrphan tbl m file
    · obtain ⟨w1, hfs, _, heq⟩ := sweepFiles_skip tbl m file files d w hofile
      rw [heq] at hgone
      obtain ⟨f, hf, ho, he⟩ := ih d w1 n (by rw [hfs]; exact hn) hgone
      exact ⟨f, List.mem_cons_of_mem _ hf, ho, by rw [← hfs]; exact he⟩
    · rw [sweepFiles_orphan tbl m file files d w hofile] at hgone
      by_cases hmid : n ∈ (afterRemove w file).fs.nodes
      · obtain ⟨f, hf, ho, he⟩ := ih _ (afterRemove w file) n hmid hgone
        exact ⟨f, List.mem_cons_of_mem _ hf, ho, entries_shrunk (remove_shrunk w.fs file) f he⟩
      · exact ⟨file, List.mem_cons_self _ _, hofile, remove_vanished w.fs file hn hmid⟩

theorem sweepFiles_calls (tbl : Char → Char) (m : GoMap) (files : List String) :
    ∀ (d : Nat) (w : World), ∃ calls : List (String × Bool),
      (sweepFiles tbl m files d w).2.removeCalls = w.removeCalls ++ calls ∧
      calls.map Prod.fst = files.filter (isOrphan tbl m) ∧
      (sweepFiles tbl m files d w).1 = d + (calls.filter (fun c => c.2)).length ∧
      ∀ c ∈ calls, c.2 = true → w.fs.denied c.1 = false := by
  induction files with
  | nil =>
    intro d w
    exact ⟨[], by simp [sweepFiles]⟩
  | cons file files ih =>
    intro d w
    cases ho : isOrphan tbl m file
    · obtain ⟨w1, hfs, hrc, heq⟩ := sweepFiles_skip tbl m file files d w ho
      obtain ⟨calls, h1, h2, h3, h4⟩ := ih d w1
      refine ⟨calls, ?_, ?_, ?_, ?_⟩
      · rw [heq, h1, hrc]
      · rw [h2, List.filter_cons_of_neg (by simp [ho])]
      · rw [heq, h3]
      · intro c hc hc2
        rw [← hfs]
        exact h4 c hc hc2
    · obtain ⟨calls, h1, h2, h3, h4⟩ :=
        ih (if (w.fs.remove file).2 then d + 1 else d) (afterRemove w file)
      refine ⟨(file, (w.fs.remove file).2) :: calls, ?_, ?_, ?_, ?_⟩
      · rw [sweepFiles_orphan tbl m file files d w ho, h1]
        simp [afterRemove]
      · rw [List.filter_cons_of_pos (by simp [ho])]
        simp [h2]
      · rw [sweepFiles_orphan tbl m file files d w ho, h3]
        cases hr : (w.fs.remove file).2
        · simp
        · simp
          omega
      · intro c hc hc2
        rcases List.mem_cons.mp hc with rfl | hc
        · simp only at hc2
          cases hden : w.fs.denied file
          · rfl
          · rw [remove_of_quiet w.fs file (Or.inl hden)] at hc2
            simp at hc2
        · have := h4 c hc hc2
          rw [show (afterRemove w file).fs.denied = w.fs.denied from remove_denied _ _] at this
          exact this

/-- When every file the loop would remove is refused or names nothing, the
loop removes nothing, counts nothing, and all its `os.Remove` calls fail. -/
theorem sweepFiles_noop (tbl : Char → Char) (m : GoMap) (files : List String) :
    ∀ (d : Nat) (w : World),
      (∀ f ∈ files, isOrphan tbl m f = true → w.fs.denied f = true ∨ w.fs.entries f = []) →
      (sweepFiles tbl m files d w).2.fs = w.fs ∧ (sweepFiles tbl m files d w).1 = d ∧
      ∃ calls : List (String × Bool),
        (sweepFiles tbl m files d w).2.removeCalls = w.removeCalls ++ calls ∧
        ∀ c ∈ calls, c.2 = false := by
  induction files with
  | nil =>
    intro d w _
    exact ⟨rfl, rfl, [], by simp [sweepFiles]⟩
  | cons file files ih =>
    intro d w h
    cases ho : isOrphan tbl m file
    · obtain ⟨w1, hfs, hrc, heq⟩ := sweepFiles_skip tbl m file files d w ho
      obtain ⟨h1, h2, calls, h3, h4⟩ := ih d w1 (fun f hf hof => by
        rw [hfs]; exact h f (List.mem_cons_of_mem _ hf) hof)
      rw [heq]
      exact ⟨h1.trans hfs, h2, calls, by rw [h3, hrc], h4⟩
    · have hrem : w.fs.remove file = (w.fs, false) :=
        remove_of_quiet w.fs file (h file (List.mem_cons_self _ _) ho)
      have hfs : (afterRemove w file).fs = w.fs := by simp [afterRemove, hrem]
      obtain ⟨h1, h2, calls, h3, h4⟩ :=
        ih (if (w.fs.remove file).2 then d + 1 else d) (afterRemove w file) (fun f hf hof => by
          rw [hfs]; exact h f (List.mem_cons_of_mem _ hf) hof)
      rw [sweepFiles_orphan tbl m file files d w ho]
      refine ⟨h1.trans hfs, ?_, (file, false) :: calls, ?_, ?_⟩
      · rw [h2, hrem]; simp
      · rw [h3]; simp [afterRemove, hrem]
      · intro c hc
        rcases List.mem_cons.mp hc with rfl | hc
        · rfl
        · exact h4 c hc

/-- The run of `cleanOrphanedBackups` when the directory exists and `Glob`
returns `files` without error. -/
theorem cleanOrphanedBackups_ok (tbl : Char → Char) (config : Config) (m : GoMap) (w : World)
    (files : List String) (hdir : w.fs.stat config.BackupPath ≠ .error .ENOENT)
    (hglob : Glob w.fs (Join config.BackupPath "*.tar.gz") = (files, none)) :
    cleanOrphanedBackups tbl config m w =
      (none, (sweepFiles tbl m files 0 (w.logf (.foundFiles files.length))).2.logf
        (.cleanupCompleted (sweepFiles tbl m files 0 (w.logf (.foundFiles files.length))).1)) := by
  unfold cleanOrphanedBackups
  simp only [hdir, if_false, hglob]

/-- The run of `cleanOrphanedBackups` when the directory is missing or `Glob`
returns an error: an error is returned and the state is left as it was. -/
theorem cleanOrphanedBackups_err (tbl : Char → Char) (config : Config) (m : GoMap) (w : World)
    (h : w.fs.stat config.BackupPath = .error .ENOENT ∨
      (Glob w.fs (Join config.BackupPath "*.tar.gz")).2 ≠ none) :
    (cleanOrphanedBackups tbl config m w).1 ≠ none ∧ (cleanOrphanedBackups tbl config m w).2 = w := by
  unfold cleanOrphanedBackups
  by_cases hdir : w.fs.stat config.BackupPath = .error .ENOENT
  · simp [hdir]
  · have hg := h.resolve_left hdir
    simp only [hdir, if_false]
    rcases hgl : Glob w.fs (Join config.BackupPath "*.tar.gz") with ⟨files, _ | e⟩
    · rw [hgl] at hg; exact absurd rfl hg
    · simp

/-! ## What `Glob` returns -/

theorem globNames_none (dir pattern : String) (ns : List String) :
    ∀ acc : List String, (globNames dir pattern ns acc).2 = none →
      (globNames dir pattern ns acc).1 =
        acc ++ (ns.filter (fun n => decide (Match pattern n = .ok true))).map (Join dir) := by
  induction ns with
  | nil => intro acc _; simp [globNames]
  | cons n ns ih =>
    intro acc h
    rw [globNames] at h ⊢
    rcases hm : Match pattern n with e | b
    · rw [hm] at h; simp at h
    · cases b
      · rw [hm] at h
        simp only at h ⊢
        rw [ih acc h]
        simp [hm]
      · rw [hm] at h
        simp only at h ⊢
        rw [ih _ h]
        simp [hm]

theorem glob_none (fs : FS) (dir file : String) (acc : List String)
    (h : (glob fs dir file acc).2 = none) :
    (glob fs dir file acc).1 = acc ++ globList fs dir file := by
  unfold glob globList at *
  rcases hs : fs.stat dir with e | b
  · simp
  · cases b
    · simp
    · rw [hs] at h
      simp only at h ⊢
      exact globNames_none dir file _ acc h

theorem globDirs_none (fs : FS) (file : String) (ds : List String) :
    ∀ acc : List String, (globDirs fs file ds acc).2 = none →
      (globDirs fs file ds acc).1 = acc ++ ds.flatMap (fun d => globList fs d file) := by
  induction ds with
  | nil => intro acc _; simp [globDirs]
  | cons d ds ih =>
    intro acc h
    rw [globDirs] at h ⊢
    rcases hg : glob fs d file acc with ⟨found1, _ | e⟩
    · rw [hg] at h
      simp only at h ⊢
      rw [ih found1 h]
      have h1 := glob_none fs d file acc (by rw [hg])
      rw [hg] at h1
      simp only at h1
      rw [h1]
      simp
    · rw [hg] at h
      simp at h

theorem readdirnames_shrunk {fs' fs : FS} (h : fs'.Shrunk fs) (d : String) :
    fs'.readdirnames d ⊆ fs.readdirnames d := by
  obtain ⟨_, gone, hn⟩ := h
  intro x hx
  unfold FS.readdirnames at *
  rw [List.mem_insertionSort] at hx ⊢
  rw [hn] at hx
  simp only [List.mem_map, List.mem_filter] at hx ⊢
  obtain ⟨n, ⟨⟨hn1, _⟩, hn2⟩, rfl⟩ := hx
  exact ⟨n, ⟨hn1, hn2⟩, rfl⟩

theorem globList_shrunk {fs' fs : FS} (h : fs'.Shrunk fs) (d file : String) :
    globList fs' d file ⊆ globList fs d file := by
  intro x hx
  unfold globList at *
  rcases hs : fs'.stat d with e | b
  · rw [hs] at hx; simp at hx
  · cases b
    · rw [hs] at hx; simp at hx
    · rw [hs] at hx
      rw [stat_shrunk h d true hs]
      simp only [List.mem_map, List.mem_filter] at hx ⊢
      obtain ⟨n, ⟨hn1, hn2⟩, rfl⟩ := hx
      exact ⟨n, ⟨readdirnames_shrunk h d hn1, hn2⟩, rfl⟩

/-- Taking entries out of the file system can only take matches out of what
`Glob` returns. -/
theorem globWithLimit_shrunk {fs' fs : FS} (h : fs'.Shrunk fs) :
    ∀ (fuel : Nat) (pattern : String) (l' l : List String),
      globWithLimit fs' fuel pattern = (l', none) → globWithLimit fs fuel pattern = (l, none) →
      l' ⊆ l := by
  intro fuel
  induction fuel with
  | zero =>
    intro pattern l' l h1 _
    simp [globWithLimit] at h1
  | succ fuel ih =>
    intro pattern l' l h1 h2
    rw [globWithLimit] at h1 h2
    rcases hm : Match pattern "" with e | b
    · rw [hm] at h1; simp at h1
    · rw [hm] at h1 h2
      simp only at h1 h2
      by_cases hmeta : hasMeta pattern = false
      · rw [if_pos hmeta] at h1 h2
        rcases hs' : fs'.stat pattern with e' | b'
        · rw [hs'] at h1
          simp only [Prod.mk.injEq] at h1
          rw [← h1.1]
          exact List.nil_subset _
        · rw [hs'] at h1
          rw [stat_shrunk h pattern b' hs'] at h2
          simp only [Prod.mk.injEq] at h1 h2
          rw [← h1.1, ← h2.1]
          exact List.Subset.refl _
      · rw [if_neg hmeta] at h1 h2
        by_cases hdm : hasMeta (cleanGlobPath (Split pattern).1) = false
        · rw [if_pos hdm] at h1 h2
          have g1 := glob_none fs' _ _ [] (by rw [h1])
          have g2 := glob_none fs _ _ [] (by rw [h2])
          rw [h1] at g1
          rw [h2] at g2
          simp only [List.nil_append] at g1 g2
          rw [g1, g2]
          exact globList_shrunk h _ _
        · rw [if_neg hdm] at h1 h2
          by_cases hdp : cleanGlobPath (Split pattern).1 = pattern
          · rw [if_pos hdp] at h1; simp at h1
          · rw [if_neg hdp] at h1 h2
            rcases hr' : globWithLimit fs' fuel (cleanGlobPath (Split pattern).1) with ⟨m', _ | e'⟩
            · rcases hr : globWithLimit fs fuel (cleanGlobPath (Split pattern).1) with ⟨m, _ | e⟩
              · rw [hr'] at h1
                rw [hr] at h2
                simp only at h1 h2
                have hsub := ih _ m' m hr' hr
                have g1 := globDirs_none fs' _ m' [] (by rw [h1])
                have g2 := globDirs_none fs _ m [] (by rw [h2])
                rw [h1] at g1
                rw [h2] at g2
                simp only [List.nil_append] at g1 g2
                rw [g1, g2]
                intro x hx
                rw [List.mem_flatMap] at hx ⊢
                obtain ⟨d, hd, hxd⟩ := hx
                exact ⟨d, hsub hd, globList_shrunk h _ _ hxd⟩
              · rw [hr] at h2; simp at h2
            · rw [hr'] at h1; simp at h1

theorem mem_globList {fs : FS} {d file x : String} (hx : x ∈ globList fs d file) :
    ∃ n ∈ fs.nodes, n.dir = d ∧ n.path = x := by
  unfold globList at hx
  rcases hs : fs.stat d with e | b
  · rw [hs] at hx; simp at hx
  · cases b
    · rw [hs] at hx; simp at hx
    · rw [hs] at hx
      simp only [List.mem_map, List.mem_filter] at hx
      obtain ⟨nm, ⟨hn1, _⟩, rfl⟩ := hx
      unfold FS.readdirnames at hn1
      rw [List.mem_insertionSort] at hn1
      simp only [List.mem_map, List.mem_filter] at hn1
      obtain ⟨n, ⟨hn, hdir⟩, rfl⟩ := hn1
      have hdir' : n.dir = d := by simpa using hdir
      exact ⟨n, hn, hdir', by rw [Node.path, hdir']⟩

theorem globList_nodup {fs : FS} (hwf : fs.WF) (d file : String) :
    (globList fs d file).Nodup := by
  unfold globList
  rcases hs : fs.stat d with e | b
  · simp
  · cases b
    · simp
    · simp only
      have hsub : (((fs.readdirnames d).filter
          (fun n => decide (Match file n = .ok true))).map (Join d)).Sublist
          ((fs.readdirnames d).map (Join d)) :=
        List.Sublist.map _ (List.filter_sublist _)
      apply List.Nodup.sublist hsub
      have hperm : ((fs.readdirnames d).map (Join d)).Perm
          ((fs.nodes.filter (fun n => n.dir = d)).map Node.path) := by
        unfold FS.readdirnames
        have h1 := List.Perm.map (Join d)
          (List.perm_insertionSort (fun a b : String => a.data ≤ b.data)
            ((fs.nodes.filter (fun n => n.dir = d)).map (fun n => n.name)))
        refine h1.trans ?_
        rw [List.map_map]
        apply List.Perm.of_eq
        apply List.map_congr_left
        intro n hn
        have : n.dir = d := by simpa using (List.mem_filter.mp hn).2
        simp [Node.path, this]
      rw [hperm.nodup_iff]
      exact List.Nodup.sublist (List.Sublist.map _ (List.filter_sublist _)) hwf

/-- In a well-formed file system `Glob` returns no path twice. -/
theorem globWithLimit_nodup {fs : FS} (hwf : fs.WF) :
    ∀ (fuel : Nat) (pattern : String) (l : List String),
      globWithLimit fs fuel pattern = (l, none) → l.Nodup := by
  intro fuel
  induction fuel with
  | zero =>
    intro pattern l h1
    simp [globWithLimit] at h1
  | succ fuel ih =>
    intro pattern l h1
    rw [globWithLimit] at h1
    rcases hm : Match pattern "" with e | b
    · rw [hm] at h1; simp at h1
    · rw [hm] at h1
      simp only at h1
      by_cases hmeta : hasMeta pattern = false
      · rw [if_pos hmeta] at h1
        rcases hs : fs.stat pattern with e' | b'
        · rw [hs] at h1
          simp only [Prod.mk.injEq] at h1
          rw [← h1.1]
          exact List.nodup_nil
        · rw [hs] at h1
          simp only [Prod.mk.injEq] at h1
          rw [← h1.1]
          exact List.nodup_singleton _
      · rw [if_neg hmeta] at h1
        by_cases hdm : hasMeta (cleanGlobPath (Split pattern).1) = false
        · rw [if_pos hdm] at h1
          have g1 := glob_none fs _ _ [] (by rw [h1])
          rw [h1] at g1
          simp only [List.nil_append] at g1
          rw [g1]
          exact globList_nodup hwf _ _
        · rw [if_neg hdm] at h1
          by_cases hdp : cleanGlobPath (Split pattern).1 = pattern
          · rw [if_pos hdp] at h1; simp at h1
          · rw [if_neg hdp] at h1
            rcases hr : globWithLimit fs fuel (cleanGlobPath (Split pattern).1) with ⟨m, _ | e⟩
            · rw [hr] at h1
              simp only at h1
              have hm := ih _ m hr
              have g1 := globDirs_none fs _ m [] (by rw [h1])
              rw [h1] at g1
              simp only [List.nil_append] at g1
              rw [g1, List.nodup_flatMap]
              refine ⟨fun d _ => globList_nodup hwf d _, ?_⟩
              refine List.Pairwise.imp_of_mem ?_ hm
              intro d1 d2 _ _ hne
              intro x hx1 hx2
              obtain ⟨n1, hn1, hd1, hp1⟩ := mem_globList hx1
              obtain ⟨n2, hn2, hd2, hp2⟩ := mem_globList hx2
              have := List.inj_on_of_nodup_map hwf hn1 hn2 (hp1.trans hp2.symm)
              exact hne (by rw [← hd1, ← hd2, this])
            · rw [hr] at h1; simp at h1

/-! ## Runs of `cleanOrphanedBackups` -/

/-- A run either ends with an error and leaves the state as it was, or
`os.Stat` did not report the directory missing, `Glob` returns a list of
files, and the loop runs over it. -/
theorem cleanOrphanedBackups_cases (tbl : Char → Char) (config : Config) (m : GoMap) (w : World) :
    ((cleanOrphanedBackups tbl config m w).1 ≠ none ∧ (cleanOrphanedBackups tbl config m w).2 = w) ∨
    ∃ files : List String, w.fs.stat config.BackupPath ≠ .error .ENOENT ∧
      Glob w.fs (Join config.BackupPath "*.tar.gz") = (files, none) := by
  by_cases hdir : w.fs.stat config.BackupPath = .error .ENOENT
  · exact Or.inl (cleanOrphanedBackups_err tbl config m w (Or.inl hdir))
  · rcases hgl : Glob w.fs (Join config.BackupPath "*.tar.gz") with ⟨files, _ | e⟩
    · exact Or.inr ⟨files, hdir, rfl⟩
    · exact Or.inl (cleanOrphanedBackups_err tbl config m w (Or.inr (by rw [hgl]; simp)))

/-- The state a run leaves when it reaches the loop, in terms of the files
`Glob` returned. -/
theorem cleanOrphanedBackups_run (tbl : Char → Char) (config : Config) (m : GoMap) (w : World)
    (files : List String) (hdir : w.fs.stat config.BackupPath ≠ .error .ENOENT)
    (hglob : Glob w.fs (Join config.BackupPath "*.tar.gz") = (files, none)) :
    (cleanOrphanedBackups tbl config m w).1 = none ∧
    (cleanOrphanedBackups tbl config m w).2.fs.Shrunk w.fs ∧
    (∀ f ∈ files, isOrphan tbl m f = true → w.fs.denied f = false →
      (cleanOrphanedBackups tbl config m w).2.fs.entries f = []) ∧
    (∀ n ∈ w.fs.nodes, n ∉ (cleanOrphanedBackups tbl config m w).2.fs.nodes →
      ∃ f ∈ files, isOrphan tbl m f = true ∧ n ∈ w.fs.entries f) ∧
    ∃ calls : List (String × Bool),
      newCalls w (cleanOrphanedBackups tbl config m w).2 = calls ∧
      calls.map Prod.fst = files.filter (isOrphan tbl m) ∧
      (∀ c ∈ calls, c.2 = true → w.fs.denied c.1 = false) ∧
      (cleanOrphanedBackups tbl config m w).2.log.getLast? =
        some (.cleanupCompleted (calls.filter (fun c => c.2)).length) := by
  rw [cleanOrphanedBackups_ok tbl config m w files hdir hglob]
  obtain ⟨calls, c1, c2, c3, c4⟩ :=
    sweepFiles_calls tbl m files 0 (w.logf (.foundFiles files.length))
  refine ⟨rfl, sweepFiles_shrunk tbl m files 0 (w.logf (.foundFiles files.length)),
    fun f hf ho hd => sweepFiles_gone tbl m files 0 (w.logf (.foundFiles files.length)) f hf ho hd,
    fun n hn hgone =>
      sweepFiles_vanished tbl m files 0 (w.logf (.foundFiles files.length)) n hn hgone,
    calls, ?_, c2, c4, ?_⟩
  · simp only [newCalls, World.logf]
    simp only [World.logf] at c1
    rw [c1]
    simp
  · simp only [World.logf] at c3
    simp only [World.logf, List.getLast?_append, List.getLast?_singleton]
    simp [c3]

theorem GoMap.get_eq_false_of_not_mem (m : GoMap) (k : String) (h : k ∉ m.keys) :
    m.get k = false := by
  unfold GoMap.get
  rcases hf : m.find? (fun e => decide (e.1 = k)) with _ | e
  · rw [hf]
  · exfalso
    apply h
    have h1 := List.find?_some hf
    have h2 := List.mem_of_find?_eq_some hf
    simp only [decide_eq_true_eq] at h1
    exact List.mem_map.mpr ⟨e, h2, h1⟩

theorem GoMap.not_mem_of_get_eq_false (m : GoMap) (k : String) (hlive : ∀ e ∈ m, e.2 = true)
    (h : m.get k = false) : k ∉ m.keys := by
  intro hk
  obtain ⟨e, he, rfl⟩ := List.mem_map.mp hk
  unfold GoMap.get at h
  rcases hf : m.find? (fun e' => decide (e'.1 = e.1)) with _ | e'
  · rw [List.find?_eq_none] at hf
    exact hf e he (by simp)
  · rw [hf] at h
    simp only at h
    have := hlive e' (List.mem_of_find?_eq_some hf)
    rw [this] at h
    exact absurd h (by simp)

theorem mem_of_mem_filter_map_fst {calls : List (String × Bool)} {files : List String}
    {p : String → Bool} (h : calls.map Prod.fst = files.filter p) (c : String × Bool)
    (hc : c ∈ calls) : c.1 ∈ files ∧ p c.1 = true := by
  have : c.1 ∈ calls.map Prod.fst := List.mem_map.mpr ⟨c, hc, rfl⟩
  rw [h] at this
  exact List.mem_filter.mp this

/-- The two error returns of `cleanOrphanedBackups`: when `os.Stat` reports
that the configured path does not exist, or when `filepath.Glob` returns an
error, the function returns an error, makes no `os.Remove` call and leaves the
file system as it was. -/
theorem cleanOrphanedBackups_error_returns (tbl : Char → Char) (config : Config)
    (validUUIDs : GoMap) (w : World)
    (h : w.fs.stat config.BackupPath = .error .ENOENT ∨
      (Glob w.fs (Join config.BackupPath "*.tar.gz")).2 ≠ none) :
    (cleanOrphanedBackups tbl config validUUIDs w).1 ≠ none ∧
    (cleanOrphanedBackups tbl config validUUIDs w).2.fs = w.fs ∧
    newCalls w (cleanOrphanedBackups tbl config validUUIDs w).2 = [] := by
  obtain ⟨h1, h2⟩ := cleanOrphanedBackups_err tbl config validUUIDs w h
  refine ⟨h1, by rw [h2], ?_⟩
  rw [h2]
  simp [newCalls]

/-! ## The sweep of the directory -/

/-- C2 (deletion guard): for a live set (a map that stores `true` only, as
`getValidBackupUUIDs` builds it), every `os.Remove` call of a run is on a path
whose extracted identifier passes `isValidUUID` and is not a key of the live
set, and every entry that is gone after the run is named by the path of such a
call; so a path whose stripped name is not a UUID is never passed to
`os.Remove`. -/
theorem deletion_guard (tbl : Char → Char) (config : Config) (validUUIDs : GoMap) (w : World)
    (hlive : ∀ e ∈ validUUIDs, e.2 = true) :
    (∀ c ∈ newCalls w (cleanOrphanedBackups tbl config validUUIDs w).2,
      isValidUUID tbl (extractUUID c.1) = true ∧ extractUUID c.1 ∉ validUUIDs.keys) ∧
    (∀ n ∈ w.fs.nodes, n ∉ (cleanOrphanedBackups tbl config validUUIDs w).2.fs.nodes →
      ∃ c ∈ newCalls w (cleanOrphanedBackups tbl config validUUIDs w).2,
        n ∈ w.fs.entries c.1) ∧
    (∀ (file : String) (ok : Bool), isValidUUID tbl (extractUUID file) = false →
      (file, ok) ∉ newCalls w (cleanOrphanedBackups tbl config validUUIDs w).2) := by
  have hcalls : ∀ c ∈ newCalls w (cleanOrphanedBackups tbl config validUUIDs w).2,
      isValidUUID tbl (extractUUID c.1) = true ∧ extractUUID c.1 ∉ validUUIDs.keys := by
    intro c hc
    rcases cleanOrphanedBackups_cases tbl config validUUIDs w with ⟨_, h2⟩ | ⟨files, hdir, hglob⟩
    · rw [h2] at hc
      simp [newCalls] at hc
    · obtain ⟨_, _, _, _, calls, hcs, hmap, _⟩ :=
        cleanOrphanedBackups_run tbl config validUUIDs w files hdir hglob
      rw [hcs] at hc
      obtain ⟨_, ho⟩ := mem_of_mem_filter_map_fst hmap c hc
      simp only [isOrphan, Bool.and_eq_true, Bool.not_eq_true'] at ho
      exact ⟨ho.1, GoMap.not_mem_of_get_eq_false validUUIDs _ hlive ho.2⟩
  refine ⟨hcalls, ?_, ?_⟩
  · intro n hn hgone
    rcases cleanOrphanedBackups_cases tbl config validUUIDs w with ⟨_, h2⟩ | ⟨files, hdir, hglob⟩
    · rw [h2] at hgone
      exact absurd hn hgone
    · obtain ⟨_, _, _, hvan, calls, hcs, hmap, _⟩ :=
        cleanOrphanedBackups_run tbl config validUUIDs w files hdir hglob
      obtain ⟨f, hf, ho, he⟩ := hvan n hn hgone
      have hmem : f ∈ calls.map Prod.fst := by
        rw [hmap]
        exact List.mem_filter.mpr ⟨hf, ho⟩
      obtain ⟨c, hc, hc1⟩ := List.mem_map.mp hmem
      refine ⟨c, by rw [hcs]; exact hc, ?_⟩
      rw [hc1]
      exact he
  · intro file ok hbad hmem
    have := (hcalls (file, ok) hmem).1
    rw [hbad] at this
    exact absurd this (by simp)

/-- Witness of C2 at the example scenario: the guard holds for its run, and
with an empty live set the two UUID-named archives are removed while
`notauuid.tar.gz` is not passed to `os.Remove`. -/
theorem deletion_guard_witness :
    (∀ e ∈ scenarioLive, e.2 = true) ∧
    ((∀ c ∈ newCalls scenarioWorld
        (cleanOrphanedBackups sampleTable (configFor "/mnt/pterodactyl") scenarioLive scenarioWorld).2,
      isValidUUID sampleTable (extractUUID c.1) = true ∧ extractUUID c.1 ∉ scenarioLive.keys) ∧
    (∀ n ∈ scenarioWorld.fs.nodes,
      n ∉ (cleanOrphanedBackups sampleTable (configFor "/mnt/pterodactyl") scenarioLive
        scenarioWorld).2.fs.nodes →
      ∃ c ∈ newCalls scenarioWorld
        (cleanOrphanedBackups sampleTable (configFor "/mnt/pterodactyl") scenarioLive scenarioWorld).2,
        n ∈ scenarioWorld.fs.entries c.1) ∧
    (∀ (file : String) (ok : Bool), isValidUUID sampleTable (extractUUID file) = false →
      (file, ok) ∉ newCalls scenarioWorld
        (cleanOrphanedBackups sampleTable (configFor "/mnt/pterodactyl") scenarioLive
          scenarioWorld).2)) ∧
    (cleanOrphanedBackups sampleTable (configFor "/mnt/pterodactyl") [] scenarioWorld).2.removeCalls =
      [("/mnt/pterodactyl/a1b2c3d4-e5f6-4a1b-8c2d-1234567890ab.tar.gz", true),
       ("/mnt/pterodactyl/ffffffff-ffff-ffff-ffff-ffffffffffff.tar.gz", true)] :=
  ⟨by decide,
   deletion_guard sampleTable (configFor "/mnt/pterodactyl") scenarioLive scenarioWorld (by decide),
   by decide⟩

/-- C3 (orphan deletion): when `os.Stat` does not report the configured path
missing and `Glob` returns `files` (in a file system where no two entries have
the same path), every file of `files` whose
extracted identifier passes `isValidUUID` and is not a key of the live set is
passed to `os.Remove` exactly once in the run, and when that call succeeds the
file does not exist after the run. -/
theorem orphan_deletion (tbl : Char → Char) (config : Config) (validUUIDs : GoMap) (w : World)
    (files : List String) (hdir : w.fs.stat config.BackupPath ≠ .error .ENOENT)
    (hglob : Glob w.fs (Join config.BackupPath "*.tar.gz") = (files, none))
    (hwf : w.fs.WF) (f : String) (hf : f ∈ files)
    (hvalid : isValidUUID tbl (extractUUID f) = true)
    (habsent : extractUUID f ∉ validUUIDs.keys) :
    ((newCalls w (cleanOrphanedBackups tbl config validUUIDs w).2).map Prod.fst).count f = 1 ∧
    ((f, true) ∈ newCalls w (cleanOrphanedBackups tbl config validUUIDs w).2 →
      (cleanOrphanedBackups tbl config validUUIDs w).2.fs.fileExists f = false) := by
  have ho : isOrphan tbl validUUIDs f = true := by
    simp [isOrphan, hvalid, GoMap.get_eq_false_of_not_mem validUUIDs _ habsent]
  obtain ⟨_, _, hgone, _, calls, hcs, hmap, hden, _⟩ :=
    cleanOrphanedBackups_run tbl config validUUIDs w files hdir hglob
  have hnd : files.Nodup := globWithLimit_nodup hwf _ _ files hglob
  refine ⟨?_, ?_⟩
  · rw [hcs, hmap]
    exact List.count_eq_one_of_mem (hnd.filter _) (List.mem_filter.mpr ⟨hf, ho⟩)
  · intro hmem
    rw [hcs] at hmem
    have hd : w.fs.denied f = false := hden (f, true) hmem rfl
    simp [FS.fileExists, hgone f hf ho hd]

/-- Witness of C3, the example scenario of the specification: of the four
entries exactly `ffffffff-ffff-ffff-ffff-ffffffffffff.tar.gz` is removed, and
the total logged at the end is 1. -/
theorem orphan_deletion_witness :
    (scenarioWorld.fs.stat (configFor "/mnt/pterodactyl").BackupPath = .ok true ∧
     Glob scenarioWorld.fs (Join (configFor "/mnt/pterodactyl").BackupPath "*.tar.gz") =
      (["/mnt/pterodactyl/a1b2c3d4-e5f6-4a1b-8c2d-1234567890ab.tar.gz",
        "/mnt/pterodactyl/ffffffff-ffff-ffff-ffff-ffffffffffff.tar.gz",
        "/mnt/pterodactyl/notauuid.tar.gz"], none) ∧
     isValidUUID sampleTable
       (extractUUID "/mnt/pterodactyl/ffffffff-ffff-ffff-ffff-ffffffffffff.tar.gz") = true ∧
     extractUUID "/mnt/pterodactyl/ffffffff-ffff-ffff-ffff-ffffffffffff.tar.gz" ∉
       scenarioLive.keys) ∧
    (((newCalls scenarioWorld (cleanOrphanedBackups sampleTable (configFor "/mnt/pterodactyl")
        scenarioLive scenarioWorld).2).map Prod.fst).count
        "/mnt/pterodactyl/ffffffff-ffff-ffff-ffff-ffffffffffff.tar.gz" = 1 ∧
     (("/mnt/pterodactyl/ffffffff-ffff-ffff-ffff-ffffffffffff.tar.gz", true) ∈
        newCalls scenarioWorld (cleanOrphanedBackups sampleTable (configFor "/mnt/pterodactyl")
          scenarioLive scenarioWorld).2 →
      (cleanOrphanedBackups sampleTable (configFor "/mnt/pterodactyl") scenarioLive
        scenarioWorld).2.fs.fileExists
          "/mnt/pterodactyl/ffffffff-ffff-ffff-ffff-ffffffffffff.tar.gz" = false)) ∧
    ((cleanOrphanedBackups sampleTable (configFor "/mnt/pterodactyl") scenarioLive
        scenarioWorld).2.removeCalls =
      [("/mnt/pterodactyl/ffffffff-ffff-ffff-ffff-ffffffffffff.tar.gz", true)] ∧
     (cleanOrphanedBackups sampleTable (configFor "/mnt/pterodactyl") scenarioLive
        scenarioWorld).2.fs.nodes.map Node.path =
      ["/mnt", "/mnt/pterodactyl",
       "/mnt/pterodactyl/a1b2c3d4-e5f6-4a1b-8c2d-1234567890ab.tar.gz",
       "/mnt/pterodactyl/notauuid.tar.gz", "/mnt/pterodactyl/readme.txt"] ∧
     (cleanOrphanedBackups sampleTable (configFor "/mnt/pterodactyl") scenarioLive
        scenarioWorld).2.log =
      [.foundFiles 3,
       .foundOrphan "ffffffff-ffff-ffff-ffff-ffffffffffff.tar.gz"
         "ffffffff-ffff-ffff-ffff-ffffffffffff",
       .deleted "ffffffff-ffff-ffff-ffff-ffffffffffff.tar.gz",
       .skipNonStandard "notauuid.tar.gz" "notauuid",
       .cleanupCompleted 1]) :=
  ⟨by decide,
   orphan_deletion sampleTable (configFor "/mnt/pterodactyl") scenarioLive scenarioWorld
     ["/mnt/pterodactyl/a1b2c3d4-e5f6-4a1b-8c2d-1234567890ab.tar.gz",
      "/mnt/pterodactyl/ffffffff-ffff-ffff-ffff-ffffffffffff.tar.gz",
      "/mnt/pterodactyl/notauuid.tar.gz"]
     (by decide) (by decide) (by unfold FS.WF; decide)
     "/mnt/pterodactyl/ffffffff-ffff-ffff-ffff-ffffffffffff.tar.gz"
     (by decide) (by decide) (by decide),
   by decide⟩

/-- C6 (per-file failure isolation): when `os.Stat` does not report the
configured path missing and `Glob` returns `files`, whatever removals the
system refuses, the run returns no
error, every file of `files` the loop decides to remove and the system does
not refuse is passed to `os.Remove` and does not exist after the run, and the
total logged at the end is the number of `os.Remove` calls that succeeded. -/
theorem failure_isolation (tbl : Char → Char) (config : Config) (validUUIDs : GoMap) (w : World)
    (files : List String) (hdir : w.fs.stat config.BackupPath ≠ .error .ENOENT)
    (hglob : Glob w.fs (Join config.BackupPath "*.tar.gz") = (files, none)) :
    (cleanOrphanedBackups tbl config validUUIDs w).1 = none ∧
    (∀ f ∈ files, isOrphan tbl validUUIDs f = true → w.fs.denied f = false →
      (∃ ok, (f, ok) ∈ newCalls w (cleanOrphanedBackups tbl config validUUIDs w).2) ∧
      (cleanOrphanedBackups tbl config validUUIDs w).2.fs.fileExists f = false) ∧
    (cleanOrphanedBackups tbl config validUUIDs w).2.log.getLast? =
      some (.cleanupCompleted
        ((newCalls w (cleanOrphanedBackups tbl config validUUIDs w).2).filter
          (fun c => c.2)).length) := by
  obtain ⟨hnone, _, hgone, _, calls, hcs, hmap, _, hlog⟩ :=
    cleanOrphanedBackups_run tbl config validUUIDs w files hdir hglob
  refine ⟨hnone, ?_, by rw [hcs]; exact hlog⟩
  intro f hf ho hd
  refine ⟨?_, ?_⟩
  · have hmem : f ∈ calls.map Prod.fst := by
      rw [hmap]
      exact List.mem_filter.mpr ⟨hf, ho⟩
    obtain ⟨c, hc, hc1⟩ := List.mem_map.mp hmem
    refine ⟨c.2, ?_⟩
    rw [hcs, ← hc1]
    exact hc
  · simp [FS.fileExists, hgone f hf ho hd]

/-- Witness of C6: the example scenario with one more orphan, enumerated first,
that the system refuses to remove; the run returns no error, the other orphan
is removed, and the total logged is 1. -/
theorem failure_isolation_witness :
    (scenarioRefused.fs.stat (configFor "/mnt/pterodactyl").BackupPath ≠ .error .ENOENT ∧
     Glob scenarioRefused.fs (Join (configFor "/mnt/pterodactyl").BackupPath "*.tar.gz") =
      (["/mnt/pterodactyl/00000000-0000-0000-0000-000000000000.tar.gz",
        "/mnt/pterodactyl/a1b2c3d4-e5f6-4a1b-8c2d-1234567890ab.tar.gz",
        "/mnt/pterodactyl/ffffffff-ffff-ffff-ffff-ffffffffffff.tar.gz",
        "/mnt/pterodactyl/notauuid.tar.gz"], none)) ∧
    ((cleanOrphanedBackups sampleTable (configFor "/mnt/pterodactyl") scenarioLive
        scenarioRefused).1 = none ∧
     (∀ f ∈ ["/mnt/pterodactyl/00000000-0000-0000-0000-000000000000.tar.gz",
        "/mnt/pterodactyl/a1b2c3d4-e5f6-4a1b-8c2d-1234567890ab.tar.gz",
        "/mnt/pterodactyl/ffffffff-ffff-ffff-ffff-ffffffffffff.tar.gz",
        "/mnt/pterodactyl/notauuid.tar.gz"],
      isOrphan sampleTable scenarioLive f = true → scenarioRefused.fs.denied f = false →
      (∃ ok, (f, ok) ∈ newCalls scenarioRefused (cleanOrphanedBackups sampleTable
        (configFor "/mnt/pterodactyl") scenarioLive scenarioRefused).2) ∧
      (cleanOrphanedBackups sampleTable (configFor "/mnt/pterodactyl") scenarioLive
        scenarioRefused).2.fs.fileExists f = false) ∧
     (cleanOrphanedBackups sampleTable (configFor "/mnt/pterodactyl") scenarioLive
        scenarioRefused).2.log.getLast? =
      some (.cleanupCompleted
        ((newCalls scenarioRefused (cleanOrphanedBackups sampleTable
          (configFor "/mnt/pterodactyl") scenarioLive scenarioRefused).2).filter
          (fun c => c.2)).length)) ∧
    ((cleanOrphanedBackups sampleTable (configFor "/mnt/pterodactyl") scenarioLive
        scenarioRefused).2.removeCalls =
      [("/mnt/pterodactyl/00000000-0000-0000-0000-000000000000.tar.gz", false),
       ("/mnt/pterodactyl/ffffffff-ffff-ffff-ffff-ffffffffffff.tar.gz", true)] ∧
     (cleanOrphanedBackups sampleTable (configFor "/mnt/pterodactyl") scenarioLive
        scenarioRefused).2.log.getLast? = some (.cleanupCompleted 1)) :=
  ⟨by decide,
   failure_isolation sampleTable (configFor "/mnt/pterodactyl") scenarioLive scenarioRefused
     ["/mnt/pterodactyl/00000000-0000-0000-0000-000000000000.tar.gz",
      "/mnt/pterodactyl/a1b2c3d4-e5f6-4a1b-8c2d-1234567890ab.tar.gz",
      "/mnt/pterodactyl/ffffffff-ffff-ffff-ffff-ffffffffffff.tar.gz",
      "/mnt/pterodactyl/notauuid.tar.gz"]
     (by decide) (by decide),
   by decide⟩

/-- C7 (idempotence): a second run of `cleanOrphanedBackups` with the same
configuration and live set, started in the state the first run left (the
system refusing the same removals), leaves the file system as the first run
left it, none of its `os.Remove` calls succeeds, and when it completes the
total it logs is 0. -/
theorem idempotence (tbl : Char → Char) (config : Config) (validUUIDs : GoMap) (w : World) :
    (cleanOrphanedBackups tbl config validUUIDs
        (cleanOrphanedBackups tbl config validUUIDs w).2).2.fs =
      (cleanOrphanedBackups tbl config validUUIDs w).2.fs ∧
    (∀ c ∈ newCalls (cleanOrphanedBackups tbl config validUUIDs w).2
        (cleanOrphanedBackups tbl config validUUIDs
          (cleanOrphanedBackups tbl config validUUIDs w).2).2, c.2 = false) ∧
    ((cleanOrphanedBackups tbl config validUUIDs
        (cleanOrphanedBackups tbl config validUUIDs w).2).1 = none →
      (cleanOrphanedBackups tbl config validUUIDs
        (cleanOrphanedBackups tbl config validUUIDs w).2).2.log.getLast? =
        some (.cleanupCompleted 0)) := by
  rcases cleanOrphanedBackups_cases tbl config validUUIDs w with ⟨h1, h2⟩ | ⟨files1, hdir, hglob⟩
  · -- the first run ended with an error: the second run starts in the same state
    rw [h2]
    obtain ⟨e1, e2⟩ := cleanOrphanedBackups_cases tbl config validUUIDs w |>.resolve_right
      (fun ⟨files, hdir, hglob⟩ =>
        h1 (cleanOrphanedBackups_run tbl config validUUIDs w files hdir hglob).1)
    rw [e2]
    refine ⟨rfl, ?_, fun hn => absurd hn e1⟩
    intro c hc
    simp [newCalls] at hc
  · obtain ⟨_, hsh, hgone, _⟩ :=
      cleanOrphanedBackups_run tbl config validUUIDs w files1 hdir hglob
    have hden := hsh.1
    generalize hw1 : (cleanOrphanedBackups tbl config validUUIDs w).2 = w1 at *
    rcases cleanOrphanedBackups_cases tbl config validUUIDs w1 with ⟨e1, e2⟩ | ⟨files2, hdir2, hglob2⟩
    · rw [e2]
      refine ⟨rfl, ?_, fun hn => absurd hn e1⟩
      intro c hc
      simp [newCalls] at hc
    · have hsub : files2 ⊆ files1 := globWithLimit_shrunk hsh _ _ files2 files1 hglob2 hglob
      have hquiet : ∀ f ∈ files2, isOrphan tbl validUUIDs f = true →
          (w1.logf (.foundFiles files2.length)).fs.denied f = true ∨
            (w1.logf (.foundFiles files2.length)).fs.entries f = [] := by
        intro f hf ho
        cases hd : w.fs.denied f
        · right
          exact hgone f (hsub hf) ho hd
        · left
          show w1.fs.denied f = true
          rw [hden, hd]
      obtain ⟨n1, n2, calls, n3, n4⟩ :=
        sweepFiles_noop tbl validUUIDs files2 0 (w1.logf (.foundFiles files2.length)) hquiet
      rw [cleanOrphanedBackups_ok tbl config validUUIDs w1 files2 hdir2 hglob2]
      refine ⟨?_, ?_, ?_⟩
      · simp only [World.logf] at n1 ⊢
        exact n1
      · intro c hc
        apply n4 c
        simp only [newCalls, World.logf] at hc n3 ⊢
        rw [n3] at hc
        simpa using hc
      · intro _
        simp only [World.logf] at n2
        simp only [World.logf, List.getLast?_append, List.getLast?_singleton]
        simp [n2]

/-! ## The UUID syntax check -/

theorem asciiToLower_table : ∀ n : Fin 128,
    isLowerHex (asciiToLower (Char.ofNat n.val)) = isHexDigit (Char.ofNat n.val) ∧
    isHyphen (asciiToLower (Char.ofNat n.val)) = isHyphen (Char.ofNat n.val) := by
  decide

theorem char_le_iff (a b : Char) : a ≤ b ↔ a.toNat ≤ b.toNat := by
  rw [Char.le_def]
  rfl

theorem isHexDigit_ascii (c : Char) (h : isHexDigit c = true) : c.toNat < 128 := by
  simp only [isHexDigit, Bool.or_eq_true, Bool.and_eq_true, decide_eq_true_eq, char_le_iff] at h
  have e1 : '9'.toNat = 57 := rfl
  have e2 : 'f'.toNat = 102 := rfl
  have e3 : 'F'.toNat = 70 := rfl
  omega

/-- Lower-casing turns exactly the hexadecimal digits into `[0-9a-f]` and
exactly `-` into `-`, when the case table maps no code point outside ASCII to
one of these. -/
theorem unicodeToLower_atoms (tbl : Char → Char)
    (htbl : ∀ c : Char, 128 ≤ c.toNat → isLowerHex (tbl c) = false ∧ isHyphen (tbl c) = false)
    (c : Char) :
    isLowerHex (unicodeToLower tbl c) = isHexDigit c ∧
    isHyphen (unicodeToLower tbl c) = isHyphen c := by
  unfold unicodeToLower
  by_cases h : c.toNat < 128
  · rw [if_pos h]
    have := asciiToLower_table ⟨c.toNat, h⟩
    simp only [Char.ofNat_toNat] at this
    exact this
  · rw [if_neg h]
    have h' : 128 ≤ c.toNat := by omega
    obtain ⟨t1, t2⟩ := htbl c h'
    rw [t1, t2]
    constructor
    · cases hx : isHexDigit c
      · rfl
      · exact absurd (isHexDigit_ascii c hx) h
    · cases hx : isHyphen c
      · rfl
      · simp only [isHyphen, beq_iff_eq] at hx
        rw [hx] at h
        exact absurd (by decide) h

theorem matchAtoms_iff (ps : List (Char → Bool)) :
    ∀ cs : List Char, matchAtoms ps cs = true ↔
      cs.length = ps.length ∧
        ∀ (i : Nat) (h1 : i < ps.length) (h2 : i < cs.length),
          ps.get ⟨i, h1⟩ (cs.get ⟨i, h2⟩) = true := by
  induction ps with
  | nil =>
    intro cs
    cases cs with
    | nil => simp [matchAtoms]
    | cons c cs => simp [matchAtoms]
  | cons p ps ih =>
    intro cs
    cases cs with
    | nil => simp [matchAtoms]
    | cons c cs =>
      simp only [matchAtoms, Bool.and_eq_true, ih cs, List.length_cons, Nat.add_right_cancel_iff]
      constructor
      · rintro ⟨hp, hl, hall⟩
        refine ⟨hl, ?_⟩
        intro i h1 h2
        cases i with
        | zero => exact hp
        | succ i => exact hall i (by simpa using h1) (by simpa using h2)
      · rintro ⟨hl, hall⟩
        refine ⟨hall 0 (by simp) (by simp), hl, ?_⟩
        intro i h1 h2
        exact hall (i + 1) (by simpa using h1) (by simpa using h2)

theorem uuidRegex_length : uuidRegex.length = 36 := by decide

theorem uuidRegex_get (i : Nat) (h : i < uuidRegex.length) :
    uuidRegex.get ⟨i, h⟩ = if i = 8 ∨ i = 13 ∨ i = 18 ∨ i = 23 then isHyphen else isLowerHex := by
  have h36 : i < 36 := by rw [uuidRegex_length] at h; exact h
  interval_cases i <;> rfl

/-- C10 (UUID syntax check): `isValidUUID s` is true exactly when `s` has 36
code points, `-` at the positions 8, 13, 18 and 23 and a hexadecimal digit
(`0-9`, `a-f`, `A-F`) at every other position; the case table of the Go
runtime is any table that maps no code point outside ASCII to `[0-9a-f]` or
`-`. -/
theorem isValidUUID_iff (tbl : Char → Char)
    (htbl : ∀ c : Char, 128 ≤ c.toNat → isLowerHex (tbl c) = false ∧ isHyphen (tbl c) = false)
    (s : String) : isValidUUID tbl s = true ↔ IsCanonicalUUID s := by
  unfold isValidUUID MatchString stringsToLower IsCanonicalUUID
  simp only [matchAtoms_iff, List.length_map, uuidRegex_length, String.length]
  constructor
  · rintro ⟨hl, hall⟩
    refine ⟨hl, ?_⟩
    intro i h
    have h1 : i < uuidRegex.length := by rw [uuidRegex_length, ← hl]; exact h
    have := hall i h1 (by simpa using h)
    rw [uuidRegex_get i h1] at this
    simp only [List.get_eq_getElem, List.getElem_map] at this ⊢
    by_cases hi : i = 8 ∨ i = 13 ∨ i = 18 ∨ i = 23
    · rw [if_pos hi] at this ⊢
      rw [(unicodeToLower_atoms tbl htbl _).2] at this
      simpa [isHyphen] using this
    · rw [if_neg hi] at this ⊢
      rw [(unicodeToLower_atoms tbl htbl _).1] at this
      exact this
  · rintro ⟨hl, hall⟩
    refine ⟨hl, ?_⟩
    intro i h1 h2
    have h : i < s.data.length := by simpa using h2
    have := hall i h
    rw [uuidRegex_get i h1]
    simp only [List.get_eq_getElem, List.getElem_map] at this ⊢
    by_cases hi : i = 8 ∨ i = 13 ∨ i = 18 ∨ i = 23
    · rw [if_pos hi] at this ⊢
      rw [(unicodeToLower_atoms tbl htbl _).2]
      simpa [isHyphen] using this
    · rw [if_neg hi] at this ⊢
      rw [(unicodeToLower_atoms tbl htbl _).1]
      exact this

theorem sampleTable_spec :
    ∀ c : Char, 128 ≤ c.toNat → isLowerHex (sampleTable c) = false ∧ isHyphen (sampleTable c) = false := by
  intro c hc
  unfold sampleTable
  split
  · decide
  · split
    · decide
    · constructor
      · cases hx : isLowerHex c
        · rfl
        · have : isHexDigit c = true := by
            simp only [isLowerHex] at hx
            simp [isHexDigit, hx]
          have := isHexDigit_ascii c this
          omega
      · cases hx : isHyphen c
        · rfl
        · simp only [isHyphen, beq_iff_eq] at hx
          rw [hx] at hc
          exact absurd hc (by decide)

/-- Witness of C10: the sample table and a mixed-case UUID, with what the check
answers for an empty string, a leading or trailing extra character, a
trailing newline, the Kelvin sign (U+212A, whose lower case is `k`), a letter
that is not a hexadecimal digit, and a UUID without hyphens. -/
theorem isValidUUID_iff_witness :
    (∀ c : Char, 128 ≤ c.toNat →
      isLowerHex (sampleTable c) = false ∧ isHyphen (sampleTable c) = false) ∧
    (isValidUUID sampleTable "A1b2C3d4-E5F6-4a1b-8C2D-1234567890aB" = true ↔
      IsCanonicalUUID "A1b2C3d4-E5F6-4a1b-8C2D-1234567890aB") ∧
    (isValidUUID sampleTable "A1b2C3d4-E5F6-4a1b-8C2D-1234567890aB" = true ∧
     isValidUUID sampleTable "" = false ∧
     isValidUUID sampleTable "xa1b2c3d4-e5f6-4a1b-8c2d-1234567890ab" = false ∧
     isValidUUID sampleTable "a1b2c3d4-e5f6-4a1b-8c2d-1234567890abc" = false ∧
     isValidUUID sampleTable "a1b2c3d4-e5f6-4a1b-8c2d-1234567890ab\n" = false ∧
     isValidUUID sampleTable "a1b2c3d4-e5f6-4a1b-8c2d-1234567890aK" = false ∧
     isValidUUID sampleTable "a1b2c3d4-e5f6-4a1b-8c2d-1234567890ag" = false ∧
     isValidUUID sampleTable "a1b2c3d4e5f64a1b8c2d1234567890ab" = false) :=
  ⟨sampleTable_spec,
   isValidUUID_iff sampleTable sampleTable_spec "A1b2C3d4-E5F6-4a1b-8C2D-1234567890aB",
   by decide⟩

/-! ## The live set -/

theorem GoMap.keys_set (m : GoMap) (k : String) (v : Bool) :
    (m.set k v).keys = if k ∈ m.keys then m.keys else m.keys ++ [k] := by
  unfold GoMap.set
  by_cases h : k ∈ m.keys
  · rw [if_pos h, if_pos h]
    unfold GoMap.keys
    rw [List.map_map]
    apply List.map_congr_left
    intro e _
    by_cases he : e.1 = k
    · simp [he]
    · simp [he]
  · rw [if_neg h, if_neg h]
    simp [GoMap.keys]

theorem GoMap.set_true_all (m : GoMap) (k : String) (h : ∀ e ∈ m, e.2 = true) :
    ∀ e ∈ m.set k true, e.2 = true := by
  unfold GoMap.set
  by_cases hk : k ∈ m.keys
  · rw [if_pos hk]
    intro e he
    obtain ⟨e0, he0, rfl⟩ := List.mem_map.mp he
    by_cases hc : e0.1 = k
    · simp [hc]
    · simp only [hc, if_false]
      exact h e0 he0
  · rw [if_neg hk]
    intro e he
    rcases List.mem_append.mp he with he | he
    · exact h e he
    · simp only [List.mem_singleton] at he
      rw [he]

/-- The loop of `getValidBackupUUIDs` (main.go:99-101). -/
theorem foldl_set_spec (backups : List Backup) :
    ∀ m : GoMap, m.keys.Nodup → (∀ e ∈ m, e.2 = true) →
      (backups.foldl (fun (m : GoMap) backup => m.set backup.UUID true) m).keys.Nodup ∧
      (∀ e ∈ backups.foldl (fun (m : GoMap) backup => m.set backup.UUID true) m, e.2 = true) ∧
      ∀ k, k ∈ (backups.foldl (fun (m : GoMap) backup => m.set backup.UUID true) m).keys ↔
        k ∈ m.keys ∨ ∃ b ∈ backups, b.UUID = k := by
  induction backups with
  | nil =>
    intro m h1 h2
    exact ⟨h1, h2, fun k => by simp⟩
  | cons b bs ih =>
    intro m h1 h2
    have hk := GoMap.keys_set m b.UUID true
    have hnd : (m.set b.UUID true).keys.Nodup := by
      rw [hk]
      by_cases hb : b.UUID ∈ m.keys
      · rw [if_pos hb]; exact h1
      · rw [if_neg hb]
        exact List.Nodup.append h1 (List.nodup_singleton _) (by simpa using hb)
    obtain ⟨i1, i2, i3⟩ := ih (m.set b.UUID true) hnd (GoMap.set_true_all m b.UUID h2)
    refine ⟨i1, i2, ?_⟩
    intro k
    rw [List.foldl_cons, i3 k, hk]
    by_cases hb : b.UUID ∈ m.keys
    · rw [if_pos hb]
      constructor
      · rintro (h | ⟨b', hb', rfl⟩)
        · exact Or.inl h
        · exact Or.inr ⟨b', List.mem_cons_of_mem _ hb', rfl⟩
      · rintro (h | ⟨b', hb', rfl⟩)
        · exact Or.inl h
        · rcases List.mem_cons.mp hb' with rfl | hb'
          · exact Or.inl hb
          · exact Or.inr ⟨b', hb', rfl⟩
    · rw [if_neg hb]
      constructor
      · rintro (h | ⟨b', hb', rfl⟩)
        · rcases List.mem_append.mp h with h | h
          · exact Or.inl h
          · simp only [List.mem_singleton] at h
            exact Or.inr ⟨b, List.mem_cons_self _ _, h.symm⟩
        · exact Or.inr ⟨b', List.mem_cons_of_mem _ hb', rfl⟩
      · rintro (h | ⟨b', hb', rfl⟩)
        · exact Or.inl (List.mem_append_left _ h)
        · rcases List.mem_cons.mp hb' with rfl | hb'
          · exact Or.inl (List.mem_append_right _ (List.mem_singleton_self _))
          · exact Or.inr ⟨b', hb', rfl⟩

/-- C9 (live-set exactness): when the query succeeds, `getValidBackupUUIDs`
returns a map whose keys are exactly the `uuid` strings, as stored, of the rows
with `deleted_at` null; each key is stored once with the value `true`, and the
size it logs is the number of distinct such strings. -/
theorem live_set_exact (db : DB) (w : World) (h : db.queryError = none) :
    ∃ m : GoMap, getValidBackupUUIDs db w = (.ok m, w.logf (.foundRecords m.len)) ∧
      (∀ k, k ∈ m.keys ↔ ∃ b ∈ db.rows, b.DeletedAt = none ∧ b.UUID = k) ∧
      (∀ k ∈ m.keys, m.get k = true) ∧
      m.keys.Nodup ∧
      m.len = ((db.rows.filter (fun b => b.DeletedAt = none)).map (fun b => b.UUID)).toFinset.card := by
  obtain ⟨i1, i2, i3⟩ := foldl_set_spec (db.rows.filter (fun b => b.DeletedAt = none)) []
    List.nodup_nil (by simp)
  refine ⟨(db.rows.filter (fun b => b.DeletedAt = none)).foldl
    (fun (m : GoMap) backup => m.set backup.UUID true) [], ?_, ?_, ?_, i1, ?_⟩
  · unfold getValidBackupUUIDs
    rw [h]
  · intro k
    rw [i3 k]
    simp only [GoMap.keys, List.map_nil, List.not_mem_nil, false_or, List.mem_filter,
      decide_eq_true_eq]
    constructor
    · rintro ⟨b, ⟨hb1, hb2⟩, rfl⟩
      exact ⟨b, hb1, hb2, rfl⟩
    · rintro ⟨b, hb1, hb2, rfl⟩
      exact ⟨b, ⟨hb1, hb2⟩, rfl⟩
  · intro k hk
    cases hg : GoMap.get _ k
    · exact absurd hk (GoMap.not_mem_of_get_eq_false _ k i2 hg)
    · rfl
  · have : GoMap.len ((db.rows.filter (fun b => b.DeletedAt = none)).foldl
        (fun (m : GoMap) backup => m.set backup.UUID true) []) =
        (GoMap.keys ((db.rows.filter (fun b => b.DeletedAt = none)).foldl
        (fun (m : GoMap) backup => m.set backup.UUID true) [])).length := by
      simp [GoMap.len, GoMap.keys]
    rw [this, ← List.toFinset_card_of_nodup i1]
    congr 1
    ext k
    simp only [List.mem_toFinset, i3 k, List.mem_map]
    simp [GoMap.keys]

/-- Witness of C9 at the sample table: two keys, the second in upper case as
stored, and the size 2 logged. -/
theorem live_set_exact_witness :
    sampleDB.queryError = none ∧
    (∃ m : GoMap, getValidBackupUUIDs sampleDB scenarioWorld =
        (.ok m, scenarioWorld.logf (.foundRecords m.len)) ∧
      (∀ k, k ∈ m.keys ↔ ∃ b ∈ sampleDB.rows, b.DeletedAt = none ∧ b.UUID = k) ∧
      (∀ k ∈ m.keys, m.get k = true) ∧
      m.keys.Nodup ∧
      m.len = ((sampleDB.rows.filter (fun b => b.DeletedAt = none)).map
        (fun b => b.UUID)).toFinset.card) ∧
    ((getValidBackupUUIDs sampleDB scenarioWorld).1 =
      .ok [("a1b2c3d4-e5f6-4a1b-8c2d-1234567890ab", true),
           ("ABCDEF01-0000-4000-8000-000000000004", true)] ∧
     (getValidBackupUUIDs sampleDB scenarioWorld).2.log = [.foundRecords 2]) :=
  ⟨rfl, live_set_exact sampleDB scenarioWorld rfl, by decide⟩

/-- C4 (a failed query is not an empty live set): when the query fails,
`getValidBackupUUIDs` returns the wrapped error and no map, and `runCleanup`
logs the failure and returns: it makes no `os.Remove` call, writes none of the
lines of `cleanOrphanedBackups`, and leaves the file system as it was. -/
theorem query_failure (tbl : Char → Char) (config : Config) (db : DB) (w : World) (e : String)
    (h : db.queryError = some e) :
    getValidBackupUUIDs db w = (.error (.queryFailed e), w) ∧
    (runCleanup tbl config db w).fs = w.fs ∧
    (runCleanup tbl config db w).removeCalls = w.removeCalls ∧
    (runCleanup tbl config db w).log =
      w.log ++ [.taskStarting, .getUUIDsFailed (.queryFailed e)] := by
  refine ⟨?_, ?_, ?_, ?_⟩
  · unfold getValidBackupUUIDs
    rw [h]
  all_goals
    unfold runCleanup getValidBackupUUIDs
    rw [h]
    simp [World.logf]

/-- Witness of C4: the example scenario with a database that refuses the
connection; nothing is removed, though with an empty table and a query that
succeeds both UUID-named archives are removed. -/
theorem query_failure_witness :
    (({ rows := [], queryError := some "dial tcp: connection refused" } : DB).queryError =
      some "dial tcp: connection refused") ∧
    (getValidBackupUUIDs { rows := [], queryError := some "dial tcp: connection refused" }
        scenarioWorld =
      (.error (.queryFailed "dial tcp: connection refused"), scenarioWorld) ∧
     (runCleanup sampleTable (configFor "/mnt/pterodactyl")
        { rows := [], queryError := some "dial tcp: connection refused" } scenarioWorld).fs =
      scenarioWorld.fs ∧
     (runCleanup sampleTable (configFor "/mnt/pterodactyl")
        { rows := [], queryError := some "dial tcp: connection refused" }
        scenarioWorld).removeCalls = scenarioWorld.removeCalls ∧
     (runCleanup sampleTable (configFor "/mnt/pterodactyl")
        { rows := [], queryError := some "dial tcp: connection refused" } scenarioWorld).log =
      scenarioWorld.log ++
        [.taskStarting, .getUUIDsFailed (.queryFailed "dial tcp: connection refused")]) ∧
    (runCleanup sampleTable (configFor "/mnt/pterodactyl")
        { rows := [], queryError := none } scenarioWorld).removeCalls =
      [("/mnt/pterodactyl/a1b2c3d4-e5f6-4a1b-8c2d-1234567890ab.tar.gz", true),
       ("/mnt/pterodactyl/ffffffff-ffff-ffff-ffff-ffffffffffff.tar.gz", true)] :=
  ⟨rfl,
   query_failure sampleTable (configFor "/mnt/pterodactyl")
     { rows := [], queryError := some "dial tcp: connection refused" } scenarioWorld
     "dial tcp: connection refused" rfl,
   by decide⟩

/-! ## Upper-case names, patterns in the directory path, paths that are no directory -/

/-- C1 (no false deletion, case-normalized) fails on the code: the identifier
extracted from `A1B2C3D4-E5F6-4A1B-8C2D-1234567890AB.tar.gz` passes
`isValidUUID`, which lower-cases it, and its lower-case form is a key of the
live set, but the lookup `validUUIDs[uuid]` uses the identifier as extracted,
finds nothing, and the file is removed. -/
theorem case_mismatch_removes_live_archive (tbl : Char → Char) :
    stringsToLower tbl (extractUUID "/mnt/pterodactyl/A1B2C3D4-E5F6-4A1B-8C2D-1234567890AB.tar.gz")
      ∈ scenarioLive.keys ∧
    isValidUUID tbl
      (extractUUID "/mnt/pterodactyl/A1B2C3D4-E5F6-4A1B-8C2D-1234567890AB.tar.gz") = true ∧
    scenarioLive.get
      (extractUUID "/mnt/pterodactyl/A1B2C3D4-E5F6-4A1B-8C2D-1234567890AB.tar.gz") = false ∧
    (cleanOrphanedBackups tbl (configFor "/mnt/pterodactyl") scenarioLive
        upperCaseWorld).2.removeCalls =
      [("/mnt/pterodactyl/A1B2C3D4-E5F6-4A1B-8C2D-1234567890AB.tar.gz", true)] ∧
    (cleanOrphanedBackups tbl (configFor "/mnt/pterodactyl") scenarioLive
        upperCaseWorld).2.fs.fileExists
      "/mnt/pterodactyl/A1B2C3D4-E5F6-4A1B-8C2D-1234567890AB.tar.gz" = false := by
  refine ⟨?_, ?_, ?_, ?_, ?_⟩
  · have h : stringsToLower tbl
        (extractUUID "/mnt/pterodactyl/A1B2C3D4-E5F6-4A1B-8C2D-1234567890AB.tar.gz") =
        "a1b2c3d4-e5f6-4a1b-8c2d-1234567890ab" := rfl
    rw [h]
    decide
  · rfl
  · decide
  · rfl
  · rfl

/-- C8 (deletion scope) fails on the code for a directory path with glob
metacharacters: the path is joined into the pattern unescaped, so with
`BACKUP_PATH=/mnt/backup[1]` the program enumerates and removes the archive in
`/mnt/backup1` and never looks at the one in the configured directory, and
with `BACKUP_PATH=/srv/backup*` it removes an archive in
`/srv/backup-of-other-node`. -/
theorem glob_metacharacters_leave_directory (tbl : Char → Char) :
    (bracketWorld.fs.stat (configFor "/mnt/backup[1]").BackupPath = .ok true ∧
     Glob bracketWorld.fs (Join (configFor "/mnt/backup[1]").BackupPath "*.tar.gz") =
       (["/mnt/backup1/eeeeeeee-eeee-eeee-eeee-eeeeeeeeeeee.tar.gz"], none) ∧
     (cleanOrphanedBackups tbl (configFor "/mnt/backup[1]") [] bracketWorld).2.removeCalls =
       [("/mnt/backup1/eeeeeeee-eeee-eeee-eeee-eeeeeeeeeeee.tar.gz", true)] ∧
     (cleanOrphanedBackups tbl (configFor "/mnt/backup[1]") [] bracketWorld).2.fs.nodes.map
         Node.path =
       ["/mnt", "/mnt/backup[1]", "/mnt/backup1",
        "/mnt/backup[1]/ffffffff-ffff-ffff-ffff-ffffffffffff.tar.gz"]) ∧
    (starWorld.fs.stat (configFor "/srv/backup*").BackupPath = .ok true ∧
     (cleanOrphanedBackups tbl (configFor "/srv/backup*") [] starWorld).2.removeCalls =
       [("/srv/backup-of-other-node/eeeeeeee-eeee-eeee-eeee-eeeeeeeeeeee.tar.gz", true)] ∧
     (cleanOrphanedBackups tbl (configFor "/srv/backup*") [] starWorld).2.fs.nodes.map
         Node.path =
       ["/srv", "/srv/backup*", "/srv/backup-of-other-node"]) := by
  refine ⟨⟨?_, ?_, ?_, ?_⟩, ?_, ?_, ?_⟩
  · decide
  · decide
  · rfl
  · rfl
  · decide
  · rfl
  · rfl

/-- C5 (directory-level fail-safe) fails on the code when the configured path
is there but is no directory: `os.Stat` succeeds on the regular file
`/mnt/pterodactyl/readme.txt`, and fails with `ENOTDIR` (for which
`os.IsNotExist` is false) on `/mnt/pterodactyl/readme.txt/sub`; the test at
main.go:119 lets both pass, `Glob` finds that it cannot list the path and
returns no match and no error, and the run logs 0 files found, 0 deleted and
returns `nil`, though no backup directory exists at the path and its entries
cannot be listed. -/
theorem path_that_is_no_directory_returns_nil (tbl : Char → Char) :
    (scenarioWorld.fs.stat (configFor "/mnt/pterodactyl/readme.txt").BackupPath = .ok false ∧
     Glob scenarioWorld.fs (Join (configFor "/mnt/pterodactyl/readme.txt").BackupPath "*.tar.gz") =
       ([], none) ∧
     (cleanOrphanedBackups tbl (configFor "/mnt/pterodactyl/readme.txt") scenarioLive
        scenarioWorld).1 = none ∧
     (cleanOrphanedBackups tbl (configFor "/mnt/pterodactyl/readme.txt") scenarioLive
        scenarioWorld).2.log = [.foundFiles 0, .cleanupCompleted 0]) ∧
    (scenarioWorld.fs.stat (configFor "/mnt/pterodactyl/readme.txt/sub").BackupPath =
       .error .ENOTDIR ∧
     Glob scenarioWorld.fs
         (Join (configFor "/mnt/pterodactyl/readme.txt/sub").BackupPath "*.tar.gz") =
       ([], none) ∧
     (cleanOrphanedBackups tbl (configFor "/mnt/pterodactyl/readme.txt/sub") scenarioLive
        scenarioWorld).1 = none ∧
     (cleanOrphanedBackups tbl (configFor "/mnt/pterodactyl/readme.txt/sub") scenarioLive
        scenarioWorld).2.log = [.foundFiles 0, .cleanupCompleted 0]) := by
  refine ⟨⟨?_, ?_, ?_, ?_⟩, ?_, ?_, ?_, ?_⟩
  · decide
  · decide
  · rfl
  · rfl
  · decide
  · decide
  · rfl
  · rfl

end BackupCleaner
